import Mathlib

/-!
Verification of the browser-flow agent-orchestration backend.

This file gives a shallow embedding, in Lean 4, of the parts of the Python
source that the specified properties talk about, and proves or refutes those
properties against the embedding.  Python `None`/values are modelled with
`Option`; Python exceptions with `Except String`; floats with `ℚ`; database
tables with lists of rows; external collaborators (the LLM reasoner, the
Notion API, the spreadsheet writer, the embedding backend) with explicit
outcome parameters, since the code treats them as black boxes.
-/

set_option maxHeartbeats 1000000

namespace BrowserFlow

/-! ## Python-style truthiness helpers -/

/-- Python truthiness of an `Optional[str]`: `None` and `""` are falsy. -/
def pyTruthyStr : Option String → Bool
  | none => false
  | some s => !s.isEmpty

/-- Python truthiness of an `Optional[List[str]]`: `None` and `[]` are falsy. -/
def pyTruthyList : Option (List String) → Bool
  | none => false
  | some l => !l.isEmpty

/-! ## C1: the `POST /tasks` invalid-input precondition (`app/api/tasks.py`, `initiate_task`)

The endpoint body begins with

    if not request.selected_text and not request.urls:
        raise HTTPException(status_code=400, detail="Either urls or context must be provided")

before any service or repository is constructed; everything after this guard
(context processing, DB writes, commit) is abstracted as `rest`.  The model
records the DB writes the handler performs: the 400 branch performs none
because the raise precedes every database interaction. -/

/-- Request body of `POST /tasks` (`TaskRequest` in `app/api/tasks.py`). -/
structure TaskRequest where
  task_type : Option String
  urls : Option (List String)
  selected_text : Option String
  user_context : Option String
deriving DecidableEq, Repr

/-- Outcome of a handler run: an HTTP error or a completed run, each carrying
the list of database writes performed along the way. -/
inductive HandlerResult where
  | httpError (status : Nat) (detail : String) (dbWrites : List String)
  | completed (dbWrites : List String)
deriving DecidableEq, Repr

/-- Database writes recorded in a handler outcome. -/
def HandlerResult.dbWrites : HandlerResult → List String
  | .httpError _ _ w => w
  | .completed w => w

/-- The `initiate_task` endpoint, up to its invalid-input guard; `rest`
abstracts the remainder of the handler (which performs the writes). -/
def initiate_task (r : TaskRequest) (rest : TaskRequest → List String) : HandlerResult :=
  if !pyTruthyStr r.selected_text && !pyTruthyList r.urls then
    .httpError 400 "Either urls or context must be provided" []
  else
    .completed (rest r)

/-- A request whose only non-empty field is `user_context`. -/
def c1Request : TaskRequest :=
  { task_type := none, urls := none, selected_text := none, user_context := some "hello" }

/-- C1 (counterexample): a request with non-empty `user_context` but empty
`urls` and `selected_text` is rejected with HTTP 400, although the claim says
the precondition passes when any of the three fields is non-empty. -/
theorem initiate_task_user_context_rejected :
    pyTruthyStr c1Request.user_context = true ∧
    initiate_task c1Request (fun _ => ["context write", "task write"]) =
      .httpError 400 "Either urls or context must be provided" [] := by
  constructor
  · rfl
  · rfl

/-- C1 (amended): the precondition consults only `urls` and `selected_text`
(`user_context` is ignored); when both are empty the request fails with
HTTP 400 and no database write is performed. -/
theorem initiate_task_precondition (r : TaskRequest) (rest : TaskRequest → List String) :
    ((pyTruthyStr r.selected_text = true ∨ pyTruthyList r.urls = true) →
      initiate_task r rest = .completed (rest r)) ∧
    (pyTruthyStr r.selected_text = false → pyTruthyList r.urls = false →
      initiate_task r rest = .httpError 400 "Either urls or context must be provided" [] ∧
      (initiate_task r rest).dbWrites = []) := by
  constructor
  · intro h
    unfold initiate_task
    rcases h with h | h <;> simp [h]
  · intro h1 h2
    unfold initiate_task
    simp [h1, h2, HandlerResult.dbWrites]

/-- Witness for `initiate_task_precondition` at concrete requests. -/
theorem initiate_task_precondition_witness :
    initiate_task ⟨none, none, some "t", none⟩ (fun _ => ["w"]) = .completed ["w"] ∧
    initiate_task c1Request (fun _ => ["w"]) =
      .httpError 400 "Either urls or context must be provided" [] := by
  refine ⟨(initiate_task_precondition _ _).1 (Or.inl (by rfl)), ?_⟩
  have h := (initiate_task_precondition c1Request (fun _ => ["w"])).2 (by rfl) (by rfl)
  exact h.1

/-! ## C2/C3: parent-topic linking
(`app/services/parent_topic_mapper.py`, `app/repositories/user_context_repository.py`)

`find_parent_topic` queries contexts of the same user whose tag array overlaps
the new tags (PostgreSQL `&&`) and whose `parent_topic` is null, then ranks the
candidates by cosine similarity of embeddings.  Cosine similarity is computed
by the injected embedding service, so embeddings are modelled as `List ℚ` and
the similarity function `sim` is a parameter.  The mapper stores a
`min_tag_overlap` field which `find_parent_topic` never reads; it is kept as an
(unused) argument to make that visible. -/

/-- The `ContextType` enum of `app/models/user_context.py`. -/
inductive ContextType where
  | text
  | image
  | video
deriving DecidableEq, Repr

/-- A `user_contexts` row (`UserContext` in `app/models/user_context.py`). -/
structure UserContext where
  context_id : String
  user_guest_id : String
  context_tags : List String
  raw_content : String
  user_defined_context : Option String
  embedding : Option (List ℚ)
  url : Option String
  context_type : ContextType
  parent_topic : Option String
  timestamp : Nat
deriving DecidableEq, Repr

/-- PostgreSQL array-overlap operator `&&`: the two arrays share an element. -/
def tagsOverlap (tags ctags : List String) : Bool :=
  tags.any (fun t => decide (t ∈ ctags))

/-- The candidate query of `find_parent_topic`: same user, overlapping tags,
`parent_topic IS NULL` (only roots can be parents). -/
def parentCandidates (db : List UserContext) (tags : List String) (uid : String) :
    List UserContext :=
  db.filter (fun c => c.user_guest_id == uid && tagsOverlap tags c.context_tags &&
    c.parent_topic.isNone)

/-- One iteration of the best-match loop of `find_parent_topic`: skip a
candidate without an embedding, otherwise keep it when its similarity strictly
exceeds the running best. -/
def bestStep (sim : List ℚ → List ℚ → ℚ) (e : List ℚ)
    (acc : Option UserContext × ℚ) (c : UserContext) : Option UserContext × ℚ :=
  match c.embedding with
  | none => acc
  | some ce => if acc.2 < sim e ce then (some c, sim e ce) else acc

/-- The best-match loop of `find_parent_topic`, scanning candidates left to
right with the running best initialised to `(None, 0.0)`. -/
def bestLoop (sim : List ℚ → List ℚ → ℚ) (e : List ℚ)
    (acc : Option UserContext × ℚ) : List UserContext → Option UserContext × ℚ
  | [] => acc
  | c :: rest => bestLoop sim e (bestStep sim e acc c) rest

/-- Embeds `ParentTopicMapper.find_parent_topic`.  `min_tag_overlap` is a constructor
field of the mapper that the method does not consult (the SQL filter is plain
array overlap); it is passed through unused, exactly as in the source. -/
def find_parent_topic (sim : List ℚ → List ℚ → ℚ) (similarity_threshold : ℚ)
    (min_tag_overlap : Nat) (db : List UserContext) (tags : List String)
    (embedding : Option (List ℚ)) (user_guest_id : String) : Option String :=
  if tags.isEmpty then none
  else
    match parentCandidates db tags user_guest_id with
    | [] => none
    | c0 :: cs =>
      match embedding with
      | some e =>
        if e.isEmpty then some c0.context_id
        else
          match bestLoop sim e (none, 0) (c0 :: cs) with
          | (some b, bestSim) =>
            if similarity_threshold ≤ bestSim then some b.context_id
            else some c0.context_id
          | (none, _) => some c0.context_id
      | none => some c0.context_id

/-- Embeds `UserContextRepository.create_user_context`: compute the parent via
`find_parent_topic` when `find_parent` is set and build the new row.  The
embedding comes from the external embedding service and is passed in as
`embedding_list`; `new_id` and `now` stand for the generated id and
`datetime.utcnow()`. -/
def create_user_context (sim : List ℚ → List ℚ → ℚ) (similarity_threshold : ℚ)
    (min_tag_overlap : Nat) (db : List UserContext) (raw_content : String)
    (context_tags : List String) (user_guest_id : String) (url : Option String)
    (user_defined_context : Option String) (context_type : ContextType)
    (find_parent : Bool) (embedding_list : Option (List ℚ)) (new_id : String)
    (now : Nat) : UserContext :=
  { context_id := new_id
    user_guest_id := user_guest_id
    context_tags := context_tags
    raw_content := raw_content
    user_defined_context := user_defined_context
    embedding := embedding_list
    url := url
    context_type := context_type
    parent_topic :=
      if find_parent then
        find_parent_topic sim similarity_threshold min_tag_overlap db context_tags
          embedding_list user_guest_id
      else none
    timestamp := now }

/-- Modelled from the spec: number of distinct tags shared with a candidate. -/
def specOverlapCount (tags ctags : List String) : Nat :=
  (tags.dedup.filter (fun t => decide (t ∈ ctags))).length

/-- Modelled from the spec: candidate set = same user, tag overlap at least
`min_overlap`, and the candidate itself is a root (`parent_context_id` null). -/
def spec_candidates (min_overlap : Nat) (db : List UserContext) (tags : List String)
    (uid : String) : List UserContext :=
  db.filter (fun c => c.user_guest_id == uid &&
    decide (min_overlap ≤ specOverlapCount tags c.context_tags) && c.parent_topic.isNone)

/-- Modelled from the spec: rank the candidates that carry an embedding and
return the first one attaining the maximal similarity, with that similarity. -/
def rank_best (sim : List ℚ → List ℚ → ℚ) (e : List ℚ) :
    List UserContext → Option (UserContext × ℚ)
  | [] => none
  | c :: rest =>
    match c.embedding with
    | none => rank_best sim e rest
    | some ce =>
      match rank_best sim e rest with
      | none => some (c, sim e ce)
      | some (b, bs) => if bs ≤ sim e ce then some (c, sim e ce) else some (b, bs)

/-- Modelled from the spec (§4.3 parent-topic linking): candidates are the
same user's roots with tag overlap ≥ `min_overlap`; with an embedding, pick
the best-ranked candidate when its similarity reaches the threshold, else fall
back to the first candidate in stable order; no candidate means no parent. -/
def spec_parent_topic (sim : List ℚ → List ℚ → ℚ) (similarity_threshold : ℚ)
    (min_overlap : Nat) (db : List UserContext) (tags : List String)
    (embedding : Option (List ℚ)) (uid : String) : Option String :=
  match spec_candidates min_overlap db tags uid with
  | [] => none
  | c0 :: cs =>
    match embedding with
    | some e =>
      if e.isEmpty then some c0.context_id
      else
        match rank_best sim e (c0 :: cs) with
        | some (b, bs) =>
          if similarity_threshold ≤ bs then some b.context_id else some c0.context_id
        | none => some c0.context_id
    | none => some c0.context_id

/-- The code's array-overlap test agrees with "at least one distinct shared tag". -/
theorem tagsOverlap_eq_one_le (tags ctags : List String) :
    tagsOverlap tags ctags = decide (1 ≤ specOverlapCount tags ctags) := by
  rw [Bool.eq_iff_iff]
  simp only [tagsOverlap, List.any_eq_true, decide_eq_true_eq, specOverlapCount,
    Nat.one_le_iff_ne_zero, Ne, List.length_eq_zero, List.filter_eq_nil_iff,
    List.mem_dedup, decide_eq_true_eq, not_forall]
  constructor
  · rintro ⟨t, ht, hc⟩
    exact ⟨t, ht, by simp [hc]⟩
  · rintro ⟨t, ht, hc⟩
    exact ⟨t, ht, by simpa using hc⟩

/-- The code's candidate query equals the spec's candidate set at overlap 1. -/
theorem parentCandidates_eq_spec (db : List UserContext) (tags : List String)
    (uid : String) :
    parentCandidates db tags uid = spec_candidates 1 db tags uid := by
  unfold parentCandidates spec_candidates
  apply List.filter_congr
  intro c _
  rw [tagsOverlap_eq_one_le]

/-- The left-to-right strict-improvement loop computes the first-ranked
maximum: starting from accumulator `(o, s)`, it returns the ranked best when
that best strictly exceeds `s`, and the accumulator otherwise. -/
theorem bestLoop_eq_rank_best (sim : List ℚ → List ℚ → ℚ) (e : List ℚ)
    (l : List UserContext) : ∀ (o : Option UserContext) (s : ℚ),
    bestLoop sim e (o, s) l =
      match rank_best sim e l with
      | none => (o, s)
      | some (b, bs) => if s < bs then (some b, bs) else (o, s) := by
  induction l with
  | nil => intro o s; rfl
  | cons c rest ih =>
    intro o s
    cases hemb : c.embedding with
    | none => simp only [bestLoop, bestStep, hemb, ih, rank_best]
    | some ce =>
      simp only [bestLoop, bestStep, hemb, rank_best]
      cases hr : rank_best sim e rest with
      | none =>
        by_cases hs : s < sim e ce
        · simp only [if_pos hs, ih, hr]
        · simp only [if_neg hs, ih, hr]
      | some p =>
        obtain ⟨b, bs⟩ := p
        by_cases hbs : bs ≤ sim e ce
        · by_cases hs : s < sim e ce
          · simp only [if_pos hs, ih, hr, if_pos hbs]
            have hnlt : ¬ sim e ce < bs := not_lt.mpr hbs
            simp [hnlt]
          · simp only [if_neg hs, ih, hr, if_pos hbs]
            have hns : ¬ s < sim e ce := hs
            have hnsb : ¬ s < bs := fun hlt => hns (lt_of_lt_of_le hlt hbs)
            simp [hns, hnsb]
        · have hlt : sim e ce < bs := not_le.mp hbs
          by_cases hs : s < sim e ce
          · simp only [if_pos hs, ih, hr, if_neg hbs, if_pos hlt]
            have hsb : s < bs := lt_trans hs hlt
            simp [hsb]
          · simp only [if_neg hs, ih, hr, if_neg hbs]

/-- C3 (amended): for any positive similarity threshold, `find_parent_topic`
returns exactly the parent prescribed by the spec's rule with the tag-overlap
requirement fixed at 1 — whatever `min_tag_overlap` the mapper was configured
with, since the method never reads it. -/
theorem find_parent_topic_eq_spec (sim : List ℚ → List ℚ → ℚ) (τ : ℚ) (m : Nat)
    (db : List UserContext) (tags : List String) (emb : Option (List ℚ))
    (uid : String) (hτ : 0 < τ) :
    find_parent_topic sim τ m db tags emb uid = spec_parent_topic sim τ 1 db tags emb uid := by
  unfold find_parent_topic spec_parent_topic
  rw [parentCandidates_eq_spec]
  by_cases htags : tags.isEmpty
  · have hempty : spec_candidates 1 db tags uid = [] := by
      unfold spec_candidates
      apply List.filter_eq_nil_iff.mpr
      intro c _
      have hcnt : specOverlapCount tags c.context_tags = 0 := by
        unfold specOverlapCount
        have ht : tags = [] := List.isEmpty_iff.mp htags
        simp [ht]
      simp [hcnt]
    simp only [if_pos htags, hempty]
  · simp only [if_neg htags]
    cases hc : spec_candidates 1 db tags uid with
    | nil => rfl
    | cons c0 cs =>
      cases emb with
      | none => rfl
      | some e =>
        by_cases he : e.isEmpty
        · simp only [if_pos he]
        · simp only [if_neg he]
          rw [bestLoop_eq_rank_best]
          cases hr : rank_best sim e (c0 :: cs) with
          | none => rfl
          | some p =>
            obtain ⟨b, bs⟩ := p
            by_cases hbs : 0 < bs
            · simp only [if_pos hbs]
            · have hble : bs ≤ 0 := not_lt.mp hbs
              have hτb : ¬ τ ≤ bs := fun hle => absurd (lt_of_lt_of_le hτ hle) (not_lt.mpr hble)
              simp only [if_neg hbs, if_neg hτb]

/-- Witness for `find_parent_topic_eq_spec` at a concrete database. -/
theorem find_parent_topic_eq_spec_witness :
    find_parent_topic (fun _ _ => 0) (7/10) 5
        [⟨"c1", "u", ["a"], "", none, none, none, .text, none, 0⟩] ["a"] none "u" =
      spec_parent_topic (fun _ _ => 0) (7/10) 1
        [⟨"c1", "u", ["a"], "", none, none, none, .text, none, 0⟩] ["a"] none "u" :=
  find_parent_topic_eq_spec _ _ _ _ _ _ _ (by norm_num)

/-- C3 (counterexample): with `min_tag_overlap = 2`, a root context sharing a
single tag is still linked as parent by the code, while the spec's rule admits
no candidate, so the claimed correspondence with the configured
`min_tag_overlap` fails. -/
theorem find_parent_topic_ignores_min_overlap :
    find_parent_topic (fun _ _ => 0) (7/10) 2
        [⟨"c1", "u", ["a"], "", none, none, none, .text, none, 0⟩] ["a"] none "u" =
      some "c1" ∧
    spec_parent_topic (fun _ _ => 0) (7/10) 2
        [⟨"c1", "u", ["a"], "", none, none, none, .text, none, 0⟩] ["a"] none "u" =
      none := by
  constructor <;> rfl

/-- The best-match loop only ever returns the accumulator or a list element. -/
theorem bestLoop_mem (sim : List ℚ → List ℚ → ℚ) (e : List ℚ)
    (l : List UserContext) : ∀ (o : Option UserContext) (s : ℚ) (b : UserContext)
      (bs : ℚ), bestLoop sim e (o, s) l = (some b, bs) → o = some b ∨ b ∈ l := by
  induction l with
  | nil =>
    intro o s b bs h
    exact Or.inl (congrArg Prod.fst h)
  | cons c rest ih =>
    intro o s b bs h
    simp only [bestLoop] at h
    cases hemb : c.embedding with
    | none =>
      simp only [bestStep, hemb] at h
      rcases ih o s b bs h with h1 | h2
      · exact Or.inl h1
      · exact Or.inr (List.mem_cons_of_mem _ h2)
    | some ce =>
      simp only [bestStep, hemb] at h
      by_cases hs : s < sim e ce
      · rw [if_pos hs] at h
        rcases ih (some c) (sim e ce) b bs h with h1 | h2
        · have hcb : c = b := Option.some.inj h1
          exact Or.inr (hcb ▸ List.mem_cons_self _ _)
        · exact Or.inr (List.mem_cons_of_mem _ h2)
      · rw [if_neg hs] at h
        rcases ih o s b bs h with h1 | h2
        · exact Or.inl h1
        · exact Or.inr (List.mem_cons_of_mem _ h2)

/-- Any id returned by `find_parent_topic` belongs to a stored context of the
same user whose own `parent_topic` is null. -/
theorem find_parent_topic_returns_root (sim : List ℚ → List ℚ → ℚ) (τ : ℚ)
    (m : Nat) (db : List UserContext) (tags : List String)
    (emb : Option (List ℚ)) (uid : String) (pid : String)
    (h : find_parent_topic sim τ m db tags emb uid = some pid) :
    ∃ c, c ∈ db ∧ c.context_id = pid ∧ c.parent_topic = none ∧
      c.user_guest_id = uid := by
  have hcand : ∀ c, c ∈ parentCandidates db tags uid →
      c ∈ db ∧ c.parent_topic = none ∧ c.user_guest_id = uid := by
    intro c hcmem
    unfold parentCandidates at hcmem
    have hmf := List.mem_filter.mp hcmem
    have h2 := hmf.2
    simp only [Bool.and_eq_true, beq_iff_eq, Option.isNone_iff_eq_none] at h2
    exact ⟨hmf.1, h2.2, h2.1.1⟩
  unfold find_parent_topic at h
  split at h
  · exact absurd h (by simp)
  · split at h
    · exact absurd h (by simp)
    · rename_i c0 cs hc
      have hc0 : c0 ∈ parentCandidates db tags uid := by
        rw [hc]; exact List.mem_cons_self _ _
      split at h
      · rename_i e
        split at h
        · obtain rfl : c0.context_id = pid := Option.some.inj h
          obtain ⟨h1, h2, h3⟩ := hcand c0 hc0
          exact ⟨c0, h1, rfl, h2, h3⟩
        · split at h
          · rename_i b bsim hbl
            split at h
            · obtain rfl : b.context_id = pid := Option.some.inj h
              have hmem : b ∈ c0 :: cs := by
                rcases bestLoop_mem sim e (c0 :: cs) none 0 b bsim hbl with h1 | h2
                · exact absurd h1 (by simp)
                · exact h2
              have hb : b ∈ parentCandidates db tags uid := by rw [hc]; exact hmem
              obtain ⟨h1, h2, h3⟩ := hcand b hb
              exact ⟨b, h1, rfl, h2, h3⟩
            · obtain rfl : c0.context_id = pid := Option.some.inj h
              obtain ⟨h1, h2, h3⟩ := hcand c0 hc0
              exact ⟨c0, h1, rfl, h2, h3⟩
          · obtain rfl : c0.context_id = pid := Option.some.inj h
            obtain ⟨h1, h2, h3⟩ := hcand c0 hc0
            exact ⟨c0, h1, rfl, h2, h3⟩
      · obtain rfl : c0.context_id = pid := Option.some.inj h
        obtain ⟨h1, h2, h3⟩ := hcand c0 hc0
        exact ⟨c0, h1, rfl, h2, h3⟩

/-- C2: a context created with `find_parent = true` that gets a parent always
points at a stored root: the parent's own `parent_topic` is null, so the
parent graph is at most two levels deep and acyclic. -/
theorem create_user_context_parent_is_root (sim : List ℚ → List ℚ → ℚ) (τ : ℚ)
    (m : Nat) (db : List UserContext) (raw : String) (tags : List String)
    (uid : String) (url : Option String) (udc : Option String)
    (ct : ContextType) (emb : Option (List ℚ)) (nid : String) (now : Nat)
    (pid : String)
    (h : (create_user_context sim τ m db raw tags uid url udc ct true emb nid
        now).parent_topic = some pid) :
    ∃ c, c ∈ db ∧ c.context_id = pid ∧ c.parent_topic = none := by
  unfold create_user_context at h
  simp only [if_pos rfl] at h
  obtain ⟨c, hcm, hid, hroot, _⟩ :=
    find_parent_topic_returns_root sim τ m db tags emb uid pid h
  exact ⟨c, hcm, hid, hroot⟩

/-- Witness for `create_user_context_parent_is_root` at a concrete database. -/
theorem create_user_context_parent_is_root_witness :
    ∃ c, c ∈ [(⟨"c1", "u", ["a"], "", none, none, none, .text, none, 0⟩ : UserContext)] ∧
      c.context_id = "c1" ∧ c.parent_topic = none :=
  create_user_context_parent_is_root (fun _ _ => 0) (7/10) 1
    [⟨"c1", "u", ["a"], "", none, none, none, .text, none, 0⟩]
    "raw" ["a"] "u" none none .text none "new" 3 "c1" rfl

/-! ## Shared value model

JSON values and the Python values that flow through agent results are
modelled by one inductive type (`json.loads` produces exactly these shapes;
numbers are modelled as integers, the fragment the code exchanges). -/

/-- A Python/JSON value: string, integer number, boolean, `None`, list, or
string-keyed dict. -/
inductive PyVal where
  | str (s : String)
  | num (n : Int)
  | bool (b : Bool)
  | null
  | list (l : List PyVal)
  | dict (d : List (String × PyVal))
deriving Repr

/-- The `AgentResult` model of `app/models/agent_result.py`. -/
structure AgentResult where
  status : String
  result : List (String × PyVal)
  excel_file_path : Option String := none
  extracted_data : Option (List (List (String × PyVal))) := none
  validation_errors : List String := []
  execution_metadata : List (String × PyVal) := []
  error : Option String := none

/-- The `TaskExecutionResult` model of `app/models/agent_result.py`. -/
structure TaskExecutionResult where
  status : String
  result : List (String × PyVal)
  agent_results : List AgentResult := []

/-- Pydantic `model_dump` of an `AgentResult`, as a plain dict. -/
def AgentResult.dump (r : AgentResult) : List (String × PyVal) :=
  [("status", .str r.status), ("result", .dict r.result),
   ("excel_file_path", r.excel_file_path.elim PyVal.null PyVal.str),
   ("extracted_data",
     r.extracted_data.elim PyVal.null (fun rows => .list (rows.map PyVal.dict))),
   ("validation_errors", .list (r.validation_errors.map PyVal.str)),
   ("execution_metadata", .dict r.execution_metadata),
   ("error", r.error.elim PyVal.null PyVal.str)]

/-! ## C4: exception capture in `TaskOrchestrator._execute_atomic_task`
(`app/services/task_orchestrator.py`)

The method looks the agent class up in the registry (a missing agent yields a
`failed` result), then spawns the agent, then runs `agent.execute` inside
`try/except`.  Only the `execute` call is inside the `try`; `spawn_agent` is
not.  Registry lookup, spawning and execution are external steps, modelled as
outcome parameters; an `Except.error` stands for a raised exception. -/

/-- Embeds `TaskOrchestrator._execute_atomic_task`: `lookup` is the registry result,
`spawn` the outcome of `agent_spawner.spawn_agent`, `execRes` the outcome of
`agent.execute`.  An `.error` return models an exception escaping to the
caller. -/
def execute_atomic_task (lookup : Option String) (spawn : Except String Unit)
    (execRes : Except String AgentResult) (task_type : String) :
    Except String TaskExecutionResult :=
  match lookup with
  | none =>
    .ok { status := "failed",
          result := [("error", .str ("No agent found for task type: " ++ task_type))] }
  | some _ =>
    match spawn with
    | .error e => .error e
    | .ok _ =>
      match execRes with
      | .ok r => .ok { status := "completed", result := r.dump, agent_results := [r] }
      | .error e => .ok { status := "failed", result := [("error", .str e)] }

/-- C4 (counterexample): an exception raised while spawning the agent is not
captured — `_execute_atomic_task` propagates it to its caller, because the
`try` block only wraps `agent.execute`. -/
theorem execute_atomic_task_spawn_propagates :
    execute_atomic_task (some "DataExtractionAgent") (.error "spawn failed")
      (.ok { status := "completed", result := [] }) "NOTE_TAKING" =
      .error "spawn failed" := rfl

/-- C4 (amended): once spawning succeeds, `_execute_atomic_task` never lets an
exception escape: an execution exception is captured into a result with status
`failed` (and a missing agent also yields a `failed` result, not an
exception). -/
theorem execute_atomic_task_captures_exec_errors (lookup : Option String)
    (execRes : Except String AgentResult) (tt : String) :
    (∃ t, execute_atomic_task lookup (.ok ()) execRes tt = .ok t) ∧
    (∀ e, execRes = .error e →
      ∃ t, execute_atomic_task lookup (.ok ()) execRes tt = .ok t ∧
        t.status = "failed") := by
  cases lookup with
  | none => exact ⟨⟨_, rfl⟩, fun e _ => ⟨_, rfl, rfl⟩⟩
  | some cls =>
    cases execRes with
    | ok r => exact ⟨⟨_, rfl⟩, fun e he => absurd he (by simp)⟩
    | error e => exact ⟨⟨_, rfl⟩, fun e2 he => ⟨_, rfl, rfl⟩⟩

/-- Witness for `execute_atomic_task_captures_exec_errors` at a concrete
failing execution. -/
theorem execute_atomic_task_captures_exec_errors_witness :
    ∃ t, execute_atomic_task (some "NoteTakingAgent") (.ok ()) (.error "boom")
      "NOTE_TAKING" = .ok t ∧ t.status = "failed" :=
  (execute_atomic_task_captures_exec_errors (some "NoteTakingAgent")
    (.error "boom") "NOTE_TAKING").2 "boom" rfl

/-! ## C6: alternative task types (`app/services/task_identification.py`)

`identify_task_type` parses the primary task type and the alternatives from
the reasoner's JSON object; `_parse_alternative_types` keeps parsed values that
are not the default `ADD_TO_KNOWLEDGE_BASE` and not already present. -/

/-- The `TaskType` enum of `app/core/task_types.py` (enum value = member name). -/
inductive TaskType where
  | NOTE_TAKING
  | ADD_TO_KNOWLEDGE_BASE
  | QUESTION_ANSWER
  | CREATE_TODO
  | CREATE_DIAGRAMS
  | ADD_TO_GOOGLE_SHEETS
  | CREATE_LOCATION_MAP
  | COMPARE_SHOPPING_PRICES
  | CREATE_ACTION_FROM_CONTEXT
  | ADD_TO_CONTEXT
deriving DecidableEq, Repr

/-- The string value of a `TaskType` member (values equal the member names). -/
def TaskType.value : TaskType → String
  | .NOTE_TAKING => "NOTE_TAKING"
  | .ADD_TO_KNOWLEDGE_BASE => "ADD_TO_KNOWLEDGE_BASE"
  | .QUESTION_ANSWER => "QUESTION_ANSWER"
  | .CREATE_TODO => "CREATE_TODO"
  | .CREATE_DIAGRAMS => "CREATE_DIAGRAMS"
  | .ADD_TO_GOOGLE_SHEETS => "ADD_TO_GOOGLE_SHEETS"
  | .CREATE_LOCATION_MAP => "CREATE_LOCATION_MAP"
  | .COMPARE_SHOPPING_PRICES => "COMPARE_SHOPPING_PRICES"
  | .CREATE_ACTION_FROM_CONTEXT => "CREATE_ACTION_FROM_CONTEXT"
  | .ADD_TO_CONTEXT => "ADD_TO_CONTEXT"

/-- Members of `TaskType` in declaration order (Python `for t in TaskType`). -/
def taskTypeMembers : List TaskType :=
  [.NOTE_TAKING, .ADD_TO_KNOWLEDGE_BASE, .QUESTION_ANSWER, .CREATE_TODO,
   .CREATE_DIAGRAMS, .ADD_TO_GOOGLE_SHEETS, .CREATE_LOCATION_MAP,
   .COMPARE_SHOPPING_PRICES, .CREATE_ACTION_FROM_CONTEXT, .ADD_TO_CONTEXT]

/-- ASCII uppercase of one character (`str.upper` acts per character on the
ASCII task-type strings involved here). -/
def charUpper (c : Char) : Char :=
  if 'a' ≤ c ∧ c ≤ 'z' then Char.ofNat (c.toNat - 32) else c

/-- Computes `value.upper().replace("-", "_")` of `_parse_task_type`, char by char. -/
def normalizeTaskType (v : String) : String :=
  String.mk (v.data.map (fun c => if c = '-' then '_' else charUpper c))

/-- Embeds `TaskIdentificationService._parse_task_type`: uppercase, hyphens to
underscores, match against enum values then names (they coincide), default to
`ADD_TO_KNOWLEDGE_BASE`. -/
def parse_task_type (value : Option String) : TaskType :=
  match value with
  | none => .ADD_TO_KNOWLEDGE_BASE
  | some v =>
    if v.isEmpty then .ADD_TO_KNOWLEDGE_BASE
    else
      let normalized := normalizeTaskType v
      match taskTypeMembers.find? (fun t => t.value == normalized) with
      | some t => t
      | none => .ADD_TO_KNOWLEDGE_BASE

/-- Embeds `TaskIdentificationService._parse_alternative_types`: keep parsed string
entries that are neither the default type nor already collected. -/
def parse_alternative_types (values : PyVal) : List TaskType :=
  match values with
  | .list vs =>
    vs.foldl (fun acc v =>
      match v with
      | .str s =>
        let parsed := parse_task_type (some s)
        if parsed = .ADD_TO_KNOWLEDGE_BASE ∨ parsed ∈ acc then acc
        else acc ++ [parsed]
      | _ => acc) []
  | _ => []

/-- The reasoner's parsed JSON object, restricted to the two fields the
type-parsing step of `identify_task_type` reads. -/
structure RawIdentification where
  task_type : Option String
  alternative_types : PyVal

/-- The type-parsing step of `identify_task_type` (lines 173–176): primary
task type and alternative list. -/
def identify_types (r : RawIdentification) : TaskType × List TaskType :=
  (parse_task_type r.task_type, parse_alternative_types r.alternative_types)

/-- C6 (counterexample): when the reasoner repeats the primary type among the
alternatives, the parsed alternatives contain the primary — only the default
`ADD_TO_KNOWLEDGE_BASE` is filtered out, not the chosen type. -/
theorem identify_types_primary_in_alternatives :
    (identify_types ⟨some "NOTE_TAKING", .list [.str "NOTE_TAKING"]⟩).2 =
      [TaskType.NOTE_TAKING] ∧
    (identify_types ⟨some "NOTE_TAKING", .list [.str "NOTE_TAKING"]⟩).1 ∈
      (identify_types ⟨some "NOTE_TAKING", .list [.str "NOTE_TAKING"]⟩).2 := by
  constructor
  · rfl
  · decide

/-- The fold of `_parse_alternative_types` preserves "no duplicates and no
default type". -/
theorem parse_alternative_types_fold_invariant (vs : List PyVal) :
    ∀ acc : List TaskType, acc.Nodup → TaskType.ADD_TO_KNOWLEDGE_BASE ∉ acc →
      (vs.foldl (fun acc v =>
        match v with
        | .str s =>
          let parsed := parse_task_type (some s)
          if parsed = .ADD_TO_KNOWLEDGE_BASE ∨ parsed ∈ acc then acc
          else acc ++ [parsed]
        | _ => acc) acc).Nodup ∧
      TaskType.ADD_TO_KNOWLEDGE_BASE ∉ (vs.foldl (fun acc v =>
        match v with
        | .str s =>
          let parsed := parse_task_type (some s)
          if parsed = .ADD_TO_KNOWLEDGE_BASE ∨ parsed ∈ acc then acc
          else acc ++ [parsed]
        | _ => acc) acc) := by
  induction vs with
  | nil => intro acc h1 h2; exact ⟨h1, h2⟩
  | cons v rest ih =>
    intro acc h1 h2
    simp only [List.foldl_cons]
    cases v with
    | str s =>
      by_cases hp : parse_task_type (some s) = .ADD_TO_KNOWLEDGE_BASE ∨
          parse_task_type (some s) ∈ acc
      · simp only [if_pos hp]
        exact ih acc h1 h2
      · simp only [if_neg hp]
        push_neg at hp
        apply ih
        · simp [List.nodup_append, h1, hp.2]
        · simp only [List.mem_append, List.mem_singleton]
          rintro (hmem | heq)
          · exact h2 hmem
          · exact hp.1 heq.symm
    | num n => exact ih acc h1 h2
    | bool b => exact ih acc h1 h2
    | null => exact ih acc h1 h2
    | list l => exact ih acc h1 h2
    | dict d => exact ih acc h1 h2

/-- C6 (amended): the parsed alternatives contain no duplicates and never
contain the default `ADD_TO_KNOWLEDGE_BASE`; hence they never contain the
primary when the primary is that default — but they may repeat any other
primary. -/
theorem identify_types_alternatives_nodup (r : RawIdentification) :
    (identify_types r).2.Nodup ∧
    TaskType.ADD_TO_KNOWLEDGE_BASE ∉ (identify_types r).2 ∧
    ((identify_types r).1 = .ADD_TO_KNOWLEDGE_BASE →
      (identify_types r).1 ∉ (identify_types r).2) := by
  have hmain : (identify_types r).2.Nodup ∧
      TaskType.ADD_TO_KNOWLEDGE_BASE ∉ (identify_types r).2 := by
    unfold identify_types parse_alternative_types
    cases r.alternative_types with
    | list vs => exact parse_alternative_types_fold_invariant vs [] (by simp) (by simp)
    | str s => simp
    | num n => simp
    | bool b => simp
    | null => simp
    | dict d => simp
  exact ⟨hmain.1, hmain.2, fun hdef => hdef ▸ hmain.2⟩

/-- Witness for `identify_types_alternatives_nodup` at a concrete parse. -/
theorem identify_types_alternatives_nodup_witness :
    TaskType.ADD_TO_KNOWLEDGE_BASE ∉
      (identify_types ⟨some "unknown-type", .list [.str "NOTE_TAKING",
        .str "ADD_TO_KNOWLEDGE_BASE"]⟩).2 ∧
    (identify_types ⟨some "unknown-type", .list [.str "NOTE_TAKING",
        .str "ADD_TO_KNOWLEDGE_BASE"]⟩).1 ∉
      (identify_types ⟨some "unknown-type", .list [.str "NOTE_TAKING",
        .str "ADD_TO_KNOWLEDGE_BASE"]⟩).2 := by
  have h := identify_types_alternatives_nodup
    ⟨some "unknown-type", .list [.str "NOTE_TAKING", .str "ADD_TO_KNOWLEDGE_BASE"]⟩
  exact ⟨h.2.1, h.2.2 (by decide)⟩

/-! ## C8/C9: the integration-token repository
(`app/repositories/user_integration_token_repository.py`)

The `user_integration_tokens` table is a list of rows; SQLAlchemy's
`scalar_one_or_none` returns the single result, `None` on no result, and
raises on several, which the model reflects in `Except`.  `upsert_token`
selects the row for `(user, integration)` with no `is_deleted` filter, so it
updates (and revives) an existing row, deleted or not, and only inserts when
none exists at all. -/

/-- A `user_integration_tokens` row. -/
structure TokenRow where
  id : String
  user_guest_id : String
  integration_tool : String
  api_key : String
  integration_metadata : List (String × String)
  is_deleted : Bool
  created_at : Nat
  updated_at : Nat
deriving DecidableEq, Repr

/-- The `(user_guest_id, integration_tool)` filter common to the queries. -/
def rowMatches (u i : String) (r : TokenRow) : Bool :=
  r.user_guest_id == u && r.integration_tool == i

/-- SQLAlchemy `scalar_one_or_none`: none, one, or an exception. -/
def scalarOneOrNone {α : Type} : List α → Except String (Option α)
  | [] => .ok none
  | [a] => .ok (some a)
  | _ => .error "MultipleResultsFound"

/-- Embeds `get_token`: project `api_key` over non-deleted rows of the pair. -/
def get_token (db : List TokenRow) (u i : String) : Except String (Option String) :=
  scalarOneOrNone
    ((db.filter (fun r => rowMatches u i r && !r.is_deleted)).map (fun r => r.api_key))

/-- The in-place update performed by the update branch of `upsert_token`. -/
def upsertUpdate (u i s : String) (m : Option (List (String × String))) (t : Nat)
    (r : TokenRow) : TokenRow :=
  if rowMatches u i r then
    { r with
      api_key := s
      is_deleted := false
      integration_metadata := m.getD []
      updated_at := t }
  else r

/-- The fresh row built by the insert branch of `upsert_token`. -/
def newTokenRow (u i s : String) (m : Option (List (String × String))) (t : Nat)
    (nid : String) : TokenRow :=
  { id := nid, user_guest_id := u, integration_tool := i, api_key := s,
    integration_metadata := m.getD [], is_deleted := false, created_at := t,
    updated_at := t }

/-- Embeds `upsert_token`: select the pair's row (deleted or not); update it in place
when present, insert a fresh row otherwise.  Either way the row ends with the
new secret and `is_deleted = False`. -/
def upsert_token (db : List TokenRow) (u i s : String)
    (m : Option (List (String × String))) (t : Nat) (nid : String) :
    Except String (List TokenRow) :=
  match scalarOneOrNone (db.filter (rowMatches u i)) with
  | .error e => .error e
  | .ok (some _) => .ok (db.map (upsertUpdate u i s m t))
  | .ok none => .ok (db ++ [newTokenRow u i s m t nid])

/-- Embeds `list_by_user`: the user's non-deleted rows (projected to dicts in the
source; the fields kept here are a superset). -/
def list_by_user (db : List TokenRow) (u : String) : List TokenRow :=
  db.filter (fun r => r.user_guest_id == u && !r.is_deleted)

/-- The per-row effect of the `soft_delete` UPDATE statement. -/
def softDeleteUpdate (u i : String) (now : Nat) (r : TokenRow) : TokenRow :=
  if rowMatches u i r && !r.is_deleted then { r with is_deleted := true, updated_at := now }
  else r

/-- Embeds `soft_delete`: flip `is_deleted` on the pair's non-deleted rows and report
whether any row was affected (`rowcount > 0`). -/
def soft_delete (db : List TokenRow) (u i : String) (now : Nat) :
    List TokenRow × Bool :=
  (db.map (softDeleteUpdate u i now),
   !(db.filter (fun r => rowMatches u i r && !r.is_deleted)).isEmpty)

/-- Embeds `get_by_id`: the row by id, owned by the user and not deleted. -/
def get_by_id (db : List TokenRow) (token_id u : String) :
    Except String (Option TokenRow) :=
  scalarOneOrNone (db.filter (fun r =>
    r.id == token_id && r.user_guest_id == u && !r.is_deleted))

/-- The update `upsertUpdate` does not change the key fields of the pair filter. -/
theorem rowMatches_upsertUpdate (u i s : String) (m : Option (List (String × String)))
    (t : Nat) (r : TokenRow) :
    rowMatches u i (upsertUpdate u i s m t r) = rowMatches u i r := by
  unfold upsertUpdate
  split <;> rfl

/-- The update `softDeleteUpdate` does not change the key fields of the pair filter. -/
theorem rowMatches_softDeleteUpdate (u i : String) (now : Nat) (r : TokenRow) :
    rowMatches u i (softDeleteUpdate u i now r) = rowMatches u i r := by
  unfold softDeleteUpdate
  split <;> rfl

/-- The update `softDeleteUpdate` does not change the row id. -/
theorem id_softDeleteUpdate (u i : String) (now : Nat) (r : TokenRow) :
    (softDeleteUpdate u i now r).id = r.id := by
  unfold softDeleteUpdate
  split <;> rfl

/-- After the soft-delete UPDATE, no row of the pair is left non-deleted. -/
theorem softDeleteUpdate_kills (u i : String) (now : Nat) (r : TokenRow) :
    (rowMatches u i (softDeleteUpdate u i now r) &&
      !(softDeleteUpdate u i now r).is_deleted) = false := by
  unfold softDeleteUpdate
  by_cases h : (rowMatches u i r && !r.is_deleted) = true
  · rw [if_pos h]
    simp
  · rw [if_neg h]
    exact Bool.eq_false_iff.mpr h

/-- Filtering commutes with a pointwise update that preserves the filter. -/
theorem filter_map_pres {p : TokenRow → Bool} {f : TokenRow → TokenRow}
    (hf : ∀ r, p (f r) = p r) (l : List TokenRow) :
    (l.map f).filter p = (l.filter p).map f := by
  induction l with
  | nil => rfl
  | cons c rest ih =>
    by_cases hc : p c = true
    · simp [List.filter_cons, hf, hc, ih]
    · simp [List.filter_cons, hf, hc, ih]

/-- The pair filter singles out the freshly inserted row. -/
theorem rowMatches_newTokenRow (u i s : String) (m : Option (List (String × String)))
    (t : Nat) (nid : String) : rowMatches u i (newTokenRow u i s m t nid) = true := by
  simp [rowMatches, newTokenRow]

/-- Insert branch of `upsert_token`, when no row of the pair exists. -/
theorem upsert_token_insert (db : List TokenRow) (u i s : String)
    (m : Option (List (String × String))) (t : Nat) (nid : String)
    (h : db.filter (rowMatches u i) = []) :
    upsert_token db u i s m t nid = .ok (db ++ [newTokenRow u i s m t nid]) := by
  unfold upsert_token
  rw [h]
  rfl

/-- Update branch of `upsert_token`, when exactly one row of the pair exists. -/
theorem upsert_token_update (db : List TokenRow) (u i s : String)
    (m : Option (List (String × String))) (t : Nat) (nid : String) (r0 : TokenRow)
    (h : db.filter (rowMatches u i) = [r0]) :
    upsert_token db u i s m t nid = .ok (db.map (upsertUpdate u i s m t)) := by
  unfold upsert_token
  rw [h]
  rfl

/-- C8: under the table invariant (at most one row per `(user, integration)`
pair), upserting twice leaves exactly one non-deleted row for the pair, it
holds the latest secret, and the second upsert updates in place — the table
does not grow. -/
theorem upsert_token_idempotent (db : List TokenRow) (u i s1 s2 : String)
    (m1 m2 : Option (List (String × String))) (t1 t2 : Nat) (id1 id2 : String)
    (huniq : (db.filter (rowMatches u i)).length ≤ 1) :
    ∃ db1 db2, upsert_token db u i s1 m1 t1 id1 = .ok db1 ∧
      upsert_token db1 u i s2 m2 t2 id2 = .ok db2 ∧
      db2.length = db1.length ∧
      (db2.filter (fun r => rowMatches u i r && !r.is_deleted)).length = 1 ∧
      (∀ r ∈ db2, rowMatches u i r = true → r.api_key = s2 ∧ r.is_deleted = false) := by
  have hpost : ∀ (d : List TokenRow) (r0 : TokenRow),
      d.filter (rowMatches u i) = [r0] →
      ∃ db2, upsert_token d u i s2 m2 t2 id2 = .ok db2 ∧
        db2.length = d.length ∧
        (db2.filter (fun r => rowMatches u i r && !r.is_deleted)).length = 1 ∧
        (∀ r ∈ db2, rowMatches u i r = true → r.api_key = s2 ∧ r.is_deleted = false) := by
    intro d r0 hd
    refine ⟨d.map (upsertUpdate u i s2 m2 t2), upsert_token_update d u i s2 m2 t2 id2 r0 hd,
      by simp, ?_, ?_⟩
    · have hfm : (d.map (upsertUpdate u i s2 m2 t2)).filter (rowMatches u i) =
          [upsertUpdate u i s2 m2 t2 r0] := by
        rw [filter_map_pres (rowMatches_upsertUpdate u i s2 m2 t2), hd]
        rfl
      have hsplit : (d.map (upsertUpdate u i s2 m2 t2)).filter
          (fun r => rowMatches u i r && !r.is_deleted) =
          ((d.map (upsertUpdate u i s2 m2 t2)).filter (rowMatches u i)).filter
            (fun r => !r.is_deleted) := by
        rw [List.filter_filter]
        apply List.filter_congr
        intro a _
        exact (Bool.and_comm _ _)
      rw [hsplit, hfm]
      have hr0 : rowMatches u i r0 = true := by
        have : r0 ∈ d.filter (rowMatches u i) := by rw [hd]; exact List.mem_singleton_self r0
        exact (List.mem_filter.mp this).2
      simp [upsertUpdate, hr0]
    · intro r hr hmatch
      have hrf : r ∈ (d.map (upsertUpdate u i s2 m2 t2)).filter (rowMatches u i) :=
        List.mem_filter.mpr ⟨hr, hmatch⟩
      have hfm : (d.map (upsertUpdate u i s2 m2 t2)).filter (rowMatches u i) =
          [upsertUpdate u i s2 m2 t2 r0] := by
        rw [filter_map_pres (rowMatches_upsertUpdate u i s2 m2 t2), hd]
        rfl
      rw [hfm] at hrf
      have hr0 : rowMatches u i r0 = true := by
        have : r0 ∈ d.filter (rowMatches u i) := by rw [hd]; exact List.mem_singleton_self r0
        exact (List.mem_filter.mp this).2
      have : r = upsertUpdate u i s2 m2 t2 r0 := List.mem_singleton.mp hrf
      rw [this]
      simp [upsertUpdate, hr0]
  cases hf : db.filter (rowMatches u i) with
  | nil =>
    have h1 : upsert_token db u i s1 m1 t1 id1 =
        .ok (db ++ [newTokenRow u i s1 m1 t1 id1]) :=
      upsert_token_insert db u i s1 m1 t1 id1 hf
    have hfilter1 : (db ++ [newTokenRow u i s1 m1 t1 id1]).filter (rowMatches u i) =
        [newTokenRow u i s1 m1 t1 id1] := by
      rw [List.filter_append, hf]
      simp [rowMatches_newTokenRow]
    obtain ⟨db2, h2, hlen, hone, hall⟩ :=
      hpost (db ++ [newTokenRow u i s1 m1 t1 id1]) (newTokenRow u i s1 m1 t1 id1) hfilter1
    exact ⟨_, db2, h1, h2, hlen, hone, hall⟩
  | cons r0 tl =>
    have htl : tl = [] := by
      rw [hf] at huniq
      simpa using huniq
    subst htl
    have h1 : upsert_token db u i s1 m1 t1 id1 = .ok (db.map (upsertUpdate u i s1 m1 t1)) :=
      upsert_token_update db u i s1 m1 t1 id1 r0 hf
    have hfilter1 : (db.map (upsertUpdate u i s1 m1 t1)).filter (rowMatches u i) =
        [upsertUpdate u i s1 m1 t1 r0] := by
      rw [filter_map_pres (rowMatches_upsertUpdate u i s1 m1 t1), hf]
      rfl
    obtain ⟨db2, h2, hlen, hone, hall⟩ :=
      hpost (db.map (upsertUpdate u i s1 m1 t1)) (upsertUpdate u i s1 m1 t1 r0) hfilter1
    exact ⟨_, db2, h1, h2, hlen, hone, hall⟩

/-- Witness for `upsert_token_idempotent` on the empty table. -/
theorem upsert_token_idempotent_witness :
    ∃ db1 db2, upsert_token [] "u" "notion" "k1" none 1 "id1" = .ok db1 ∧
      upsert_token db1 "u" "notion" "k2" none 2 "id2" = .ok db2 ∧
      db2.length = db1.length ∧
      (db2.filter (fun r => rowMatches "u" "notion" r && !r.is_deleted)).length = 1 ∧
      (∀ r ∈ db2, rowMatches "u" "notion" r = true →
        r.api_key = "k2" ∧ r.is_deleted = false) :=
  upsert_token_idempotent [] "u" "notion" "k1" "k2" none none 1 2 "id1" "id2"
    (by simp)

/-- C9: every read path filters on `is_deleted = False`, so after a
successful `soft_delete(user, integration)` the credential is invisible —
`get_token` yields `None`, `list_by_user` omits the integration, `get_by_id`
(under distinct row ids) yields `None` — until a later `upsert_token`, which
(under the pair-uniqueness invariant) revives the same row rather than adding
one, making the secret readable again. -/
theorem soft_delete_hides_until_upsert (db : List TokenRow) (u i : String) (now : Nat) :
    get_token (soft_delete db u i now).1 u i = .ok none ∧
    (∀ r ∈ list_by_user (soft_delete db u i now).1 u, r.integration_tool ≠ i) ∧
    ((db.map (fun r => r.id)).Nodup →
      ∀ r ∈ db, rowMatches u i r = true →
        get_by_id (soft_delete db u i now).1 r.id u = .ok none) ∧
    ((db.filter (rowMatches u i)).length ≤ 1 →
      ∀ (s : String) (m : Option (List (String × String))) (t : Nat) (nid : String),
        ∃ db2, upsert_token (soft_delete db u i now).1 u i s m t nid = .ok db2 ∧
          get_token db2 u i = .ok (some s) ∧
          ((soft_delete db u i now).2 = true → db2.length = db.length)) := by
  have hnil : (db.map (softDeleteUpdate u i now)).filter
      (fun r => rowMatches u i r && !r.is_deleted) = [] := by
    apply List.filter_eq_nil_iff.mpr
    intro x hx
    obtain ⟨r, _, rfl⟩ := List.mem_map.mp hx
    simp [softDeleteUpdate_kills]
  refine ⟨?_, ?_, ?_, ?_⟩
  · show get_token (db.map (softDeleteUpdate u i now)) u i = .ok none
    unfold get_token
    rw [hnil]
    rfl
  · intro r hr heq
    have hmem := List.mem_filter.mp hr
    obtain ⟨hrd, hcond⟩ := hmem
    simp only [Bool.and_eq_true, beq_iff_eq, Bool.not_eq_true'] at hcond
    obtain ⟨r0, _, rfl⟩ := List.mem_map.mp hrd
    have hkill := softDeleteUpdate_kills u i now r0
    have htrue : (rowMatches u i (softDeleteUpdate u i now r0) &&
        !(softDeleteUpdate u i now r0).is_deleted) = true := by
      simp [rowMatches, hcond.1, heq, hcond.2]
    rw [hkill] at htrue
    exact Bool.false_ne_true htrue
  · intro hnodup r hrdb hP
    have hempty : (db.map (softDeleteUpdate u i now)).filter (fun x =>
        x.id == r.id && x.user_guest_id == u && !x.is_deleted) = [] := by
      apply List.filter_eq_nil_iff.mpr
      intro x hx
      obtain ⟨r0, hr0, rfl⟩ := List.mem_map.mp hx
      intro hcontra
      simp only [Bool.and_eq_true, beq_iff_eq, Bool.not_eq_true'] at hcontra
      obtain ⟨⟨hid, huser⟩, hdel⟩ := hcontra
      rw [id_softDeleteUpdate] at hid
      have hr0r : r0 = r :=
        List.inj_on_of_nodup_map hnodup hr0 hrdb hid
      subst hr0r
      have hkill := softDeleteUpdate_kills u i now r0
      have htrue : (rowMatches u i (softDeleteUpdate u i now r0) &&
          !(softDeleteUpdate u i now r0).is_deleted) = true := by
        rw [rowMatches_softDeleteUpdate, hP]
        simp [hdel]
      rw [hkill] at htrue
      exact Bool.false_ne_true htrue
    show get_by_id (db.map (softDeleteUpdate u i now)) r.id u = .ok none
    unfold get_by_id
    rw [hempty]
    rfl
  · intro huniq s m t nid
    have hfeq : (db.map (softDeleteUpdate u i now)).filter (rowMatches u i) =
        (db.filter (rowMatches u i)).map (softDeleteUpdate u i now) :=
      filter_map_pres (rowMatches_softDeleteUpdate u i now) db
    cases hf : db.filter (rowMatches u i) with
    | nil =>
      have hnilP : (db.map (softDeleteUpdate u i now)).filter (rowMatches u i) = [] := by
        rw [hfeq, hf]
        rfl
      have h1 : upsert_token (db.map (softDeleteUpdate u i now)) u i s m t nid =
          .ok (db.map (softDeleteUpdate u i now) ++ [newTokenRow u i s m t nid]) :=
        upsert_token_insert _ u i s m t nid hnilP
      refine ⟨_, h1, ?_, ?_⟩
      · show get_token (db.map (softDeleteUpdate u i now) ++ [newTokenRow u i s m t nid])
          u i = .ok (some s)
        unfold get_token
        rw [List.filter_append, hnil]
        have hnew : ([newTokenRow u i s m t nid].filter
            (fun r => rowMatches u i r && !r.is_deleted)) = [newTokenRow u i s m t nid] := by
          simp [rowMatches, newTokenRow]
        rw [hnew]
        rfl
      · intro hfound
        exfalso
        have hsub : db.filter (fun r => rowMatches u i r && !r.is_deleted) = [] := by
          apply List.filter_eq_nil_iff.mpr
          intro x hx hcontra
          have hxP : x ∈ db.filter (rowMatches u i) := by
            apply List.mem_filter.mpr
            refine ⟨hx, ?_⟩
            simp only [Bool.and_eq_true] at hcontra
            exact hcontra.1
          rw [hf] at hxP
          exact absurd hxP (List.not_mem_nil x)
        have : (soft_delete db u i now).2 = false := by
          show (!(db.filter (fun r => rowMatches u i r && !r.is_deleted)).isEmpty) = false
          rw [hsub]
          rfl
        rw [this] at hfound
        exact Bool.false_ne_true hfound
    | cons r0 tl =>
      have htl : tl = [] := by
        rw [hf] at huniq
        simpa using huniq
      subst htl
      have honeP : (db.map (softDeleteUpdate u i now)).filter (rowMatches u i) =
          [softDeleteUpdate u i now r0] := by
        rw [hfeq, hf]
        rfl
      have h1 : upsert_token (db.map (softDeleteUpdate u i now)) u i s m t nid =
          .ok ((db.map (softDeleteUpdate u i now)).map (upsertUpdate u i s m t)) :=
        upsert_token_update _ u i s m t nid _ honeP
      have hr0 : rowMatches u i r0 = true := by
        have : r0 ∈ db.filter (rowMatches u i) := by
          rw [hf]; exact List.mem_singleton_self r0
        exact (List.mem_filter.mp this).2
      refine ⟨_, h1, ?_, ?_⟩
      · show get_token ((db.map (softDeleteUpdate u i now)).map (upsertUpdate u i s m t))
          u i = .ok (some s)
        unfold get_token
        have hsplit : ((db.map (softDeleteUpdate u i now)).map (upsertUpdate u i s m t)).filter
            (fun r => rowMatches u i r && !r.is_deleted) =
            (((db.map (softDeleteUpdate u i now)).map (upsertUpdate u i s m t)).filter
              (rowMatches u i)).filter (fun r => !r.is_deleted) := by
          rw [List.filter_filter]
          apply List.filter_congr
          intro a _
          exact (Bool.and_comm _ _)
        rw [hsplit, filter_map_pres (rowMatches_upsertUpdate u i s m t), honeP]
        have hPsd : rowMatches u i (softDeleteUpdate u i now r0) = true := by
          rw [rowMatches_softDeleteUpdate, hr0]
        simp only [List.map_cons, List.map_nil]
        have hupd : upsertUpdate u i s m t (softDeleteUpdate u i now r0) =
            { softDeleteUpdate u i now r0 with
              api_key := s
              is_deleted := false
              integration_metadata := m.getD []
              updated_at := t } := by
          unfold upsertUpdate
          rw [if_pos hPsd]
        rw [hupd]
        rfl
      · intro _
        simp [List.length_map]

/-- Witness for `soft_delete_hides_until_upsert` on a one-row table. -/
theorem soft_delete_hides_until_upsert_witness :
    get_token (soft_delete [⟨"id1", "u", "notion", "k", [], false, 0, 0⟩]
      "u" "notion" 5).1 "u" "notion" = .ok none ∧
    get_by_id (soft_delete [⟨"id1", "u", "notion", "k", [], false, 0, 0⟩]
      "u" "notion" 5).1 "id1" "u" = .ok none ∧
    ∃ db2, upsert_token (soft_delete [⟨"id1", "u", "notion", "k", [], false, 0, 0⟩]
        "u" "notion" 5).1 "u" "notion" "k2" none 6 "id2" = .ok db2 ∧
      get_token db2 "u" "notion" = .ok (some "k2") := by
  have h := soft_delete_hides_until_upsert
    [⟨"id1", "u", "notion", "k", [], false, 0, 0⟩] "u" "notion" 5
  refine ⟨h.1, ?_, ?_⟩
  · have hg := h.2.2.1 (by simp) ⟨"id1", "u", "notion", "k", [], false, 0, 0⟩
      (by simp) (by rfl)
    exact hg
  · obtain ⟨db2, h1, h2, _⟩ := h.2.2.2 (by simp [rowMatches]) "k2" none 6 "id2"
    exact ⟨db2, h1, h2⟩

/-! ## JSON machinery shared by C5/C7/C10

`json.loads` is modelled by a recursive-descent parser over `List Char` for
the fragment the code exchanges: objects, arrays, strings (with the common
escapes), integer numbers, booleans and null, with surrounding whitespace.
The parse succeeds only when the whole input is one value, as `json.loads`
requires.  Python's `str.find`/`str.rfind` are modelled directly. -/

/-- Python `text.find(ch)`: index of the first matching character. -/
def pyFindChar (p : Char → Bool) : List Char → Option Nat
  | [] => none
  | c :: rest => if p c then some 0 else (pyFindChar p rest).map (· + 1)

/-- Python `text.rfind(ch)`: index of the last matching character. -/
def pyRFindChar (p : Char → Bool) : List Char → Option Nat
  | [] => none
  | c :: rest =>
    match pyRFindChar p rest with
    | some j => some (j + 1)
    | none => if p c then some 0 else none

/-- Python slice `text[start:stop]`. -/
def sliceList (s : List Char) (start stop : Nat) : List Char :=
  (s.drop start).take (stop - start)

/-- JSON whitespace. -/
def isWsChar (c : Char) : Bool :=
  c == ' ' || c == '\n' || c == '\t' || c == '\r'

/-- Drop leading JSON whitespace. -/
def skipWs : List Char → List Char
  | [] => []
  | c :: rest => if isWsChar c then skipWs rest else c :: rest

/-- Parse the body of a JSON string after the opening quote; returns the
decoded characters and the remainder past the closing quote. -/
def parseStringBody : List Char → Option (List Char × List Char)
  | [] => none
  | '"' :: rest => some ([], rest)
  | '\\' :: e :: rest2 =>
    let ec := if e == 'n' then '\n' else if e == 't' then '\t'
      else if e == 'r' then '\r' else e
    match parseStringBody rest2 with
    | some (s, r) => some (ec :: s, r)
    | none => none
  | ['\\'] => none
  | c :: rest =>
    match parseStringBody rest with
    | some (s, r) => some (c :: s, r)
    | none => none

/-- Take a maximal run of decimal digits. -/
def takeDigits : List Char → List Char × List Char
  | [] => ([], [])
  | c :: rest =>
    if c.isDigit then
      let (d, r) := takeDigits rest
      (c :: d, r)
    else ([], c :: rest)

/-- Decimal digits to a natural number. -/
def digitsToNat (ds : List Char) : Nat :=
  ds.foldl (fun acc c => acc * 10 + (c.toNat - 48)) 0

mutual

/-- Parse one JSON value (integer-number fragment); `fuel` bounds nesting. -/
def parseValue : Nat → List Char → Option (PyVal × List Char)
  | 0, _ => none
  | fuel + 1, input =>
    match skipWs input with
    | [] => none
    | c :: rest =>
      if c == '"' then
        match parseStringBody rest with
        | some (s, r) => some (.str (String.mk s), r)
        | none => none
      else if c == '\x7b' then parseMembers fuel true rest
      else if c == '[' then parseElems fuel true rest
      else if c == 't' then
        match rest with
        | 'r' :: 'u' :: 'e' :: r => some (.bool true, r)
        | _ => none
      else if c == 'f' then
        match rest with
        | 'a' :: 'l' :: 's' :: 'e' :: r => some (.bool false, r)
        | _ => none
      else if c == 'n' then
        match rest with
        | 'u' :: 'l' :: 'l' :: r => some (.null, r)
        | _ => none
      else if c == '-' then
        match takeDigits rest with
        | ([], _) => none
        | (ds, r) => some (.num (-(digitsToNat ds : Int)), r)
      else if c.isDigit then
        match takeDigits (c :: rest) with
        | (ds, r) => some (.num (digitsToNat ds : Int), r)
      else none

/-- Parse object members after `{` (`first` allows an immediate `}`). -/
def parseMembers : Nat → Bool → List Char → Option (PyVal × List Char)
  | 0, _, _ => none
  | fuel + 1, first, input =>
    match skipWs input with
    | '\x7d' :: rest => if first then some (.dict [], rest) else none
    | '"' :: rest =>
      match parseStringBody rest with
      | none => none
      | some (k, r1) =>
        match skipWs r1 with
        | ':' :: r2 =>
          match parseValue fuel r2 with
          | none => none
          | some (v, r3) =>
            match skipWs r3 with
            | ',' :: r4 =>
              match parseMembers fuel false r4 with
              | some (.dict ms, r5) => some (.dict ((String.mk k, v) :: ms), r5)
              | _ => none
            | '\x7d' :: r4 => some (.dict [(String.mk k, v)], r4)
            | _ => none
        | _ => none
    | _ => none

/-- Parse array elements after `[` (`first` allows an immediate `]`). -/
def parseElems : Nat → Bool → List Char → Option (PyVal × List Char)
  | 0, _, _ => none
  | fuel + 1, first, input =>
    match skipWs input with
    | ']' :: rest => if first then some (.list [], rest) else none
    | other =>
      match parseValue fuel other with
      | none => none
      | some (v, r1) =>
        match skipWs r1 with
        | ',' :: r2 =>
          match parseElems fuel false r2 with
          | some (.list vs, r3) => some (.list (v :: vs), r3)
          | _ => none
        | ']' :: r2 => some (.list [v], r2)
        | _ => none

end

/-- Models `json.loads`: one JSON value and nothing but whitespace around it. -/
def json_loads (s : List Char) : Option PyVal :=
  match parseValue (s.length + 1) s with
  | some (v, rest) => if (skipWs rest).isEmpty then some v else none
  | none => none

/-! ## C7: `ReasoningEngine.reason_with_json_output`
(`app/core/agents/reasoning_engine.py`)

After `reason` returns, an error result is passed through unchanged;
otherwise the method takes `text.find("{")` and `text.rfind("}") + 1`, slices
that span, and `json.loads` it; any failure falls back to the raw text plus a
`warning` field. -/

/-- Outcome of the inner `reason` call: an error dict or a text result. -/
inductive ReasonOutcome where
  | failure (error : String)
  | text (s : List Char)

/-- Return value of `reason_with_json_output`: the error dict passed through,
a parsed JSON result, or the raw text with the warning field set. -/
inductive JsonReasonResult where
  | errorResult (error : String)
  | parsed (v : PyVal)
  | rawWithWarning (raw : List Char)

/-- Embeds `ReasoningEngine.reason_with_json_output`, after the `reason` call:
find/rfind the brace span, parse it, fall back to the raw text with a
warning on any failure. -/
def reason_with_json_output (r : ReasonOutcome) : JsonReasonResult :=
  match r with
  | .failure e => .errorResult e
  | .text s =>
    match pyFindChar (fun c => c == '\x7b') s with
    | some i =>
      match pyRFindChar (fun c => c == '\x7d') s with
      | some j =>
        if i < j + 1 then
          match json_loads (sliceList s i (j + 1)) with
          | some v => .parsed v
          | none => .rawWithWarning s
        else .rawWithWarning s
      | none => .rawWithWarning s
    | none => .rawWithWarning s

/-- The brace span as the code computes it, via find/rfind indices. -/
def codeSpan (s : List Char) : Option (List Char) :=
  match pyFindChar (fun c => c == '\x7b') s with
  | some i =>
    match pyRFindChar (fun c => c == '\x7d') s with
    | some j => if i < j + 1 then some (sliceList s i (j + 1)) else none
    | none => none
  | none => none

/-- Keep an initial segment of the input through the last matching character;
`none` when no character matches. -/
def keepThroughLast (p : Char → Bool) : List Char → Option (List Char)
  | [] => none
  | c :: rest =>
    match keepThroughLast p rest with
    | some u => some (c :: u)
    | none => if p c then some [c] else none

/-- The brace span, stated declaratively: drop up to the first `{`, keep
through the last `}`. -/
def braceSpan (s : List Char) : Option (List Char) :=
  keepThroughLast (fun c => c == '\x7d') (s.dropWhile (fun c => c != '\x7b'))

/-- Modelled from the spec: the first balanced `{...}` substring, by depth
counting from the first `{`. -/
def scanBalanced : Nat → List Char → List Char → Option (List Char)
  | _, _, [] => none
  | depth, acc, c :: rest =>
    if c == '\x7b' then scanBalanced (depth + 1) (c :: acc) rest
    else if c == '\x7d' then
      if depth == 1 then some (c :: acc).reverse
      else scanBalanced (depth - 1) (c :: acc) rest
    else scanBalanced depth (c :: acc) rest

/-- Modelled from the spec: extract the first balanced `{...}` substring. -/
def firstBalanced (s : List Char) : Option (List Char) :=
  scanBalanced 0 [] (s.dropWhile (fun c => c != '\x7b'))

/-- The function `keepThroughLast` keeps exactly the prefix through the `rfind` index. -/
theorem keepThroughLast_eq_rfind (p : Char → Bool) :
    ∀ s : List Char, keepThroughLast p s =
      (pyRFindChar p s).map (fun j => s.take (j + 1)) := by
  intro s
  induction s with
  | nil => rfl
  | cons c rest ih =>
    simp only [keepThroughLast, pyRFindChar, ih]
    cases hr : pyRFindChar p rest with
    | some j => simp
    | none =>
      by_cases hc : p c
      · simp [hc]
      · simp [hc]

/-- The find/rfind span of the code equals the declarative brace span. -/
theorem codeSpan_eq_braceSpan : ∀ s : List Char, codeSpan s = braceSpan s := by
  intro s
  induction s with
  | nil => rfl
  | cons c rest ih =>
    by_cases hc : c = '\x7b'
    · subst hc
      have hdw : (('\x7b' :: rest).dropWhile (fun c => c != '\x7b')) = '\x7b' :: rest := by
        simp [List.dropWhile_cons]
      have hrhs : braceSpan ('\x7b' :: rest) =
          (pyRFindChar (fun c => c == '\x7d') ('\x7b' :: rest)).map
            (fun j => ('\x7b' :: rest).take (j + 1)) := by
        rw [braceSpan, hdw, keepThroughLast_eq_rfind]
      rw [hrhs]
      have hfind : pyFindChar (fun c => c == '\x7b') ('\x7b' :: rest) = some 0 := by
        simp [pyFindChar]
      cases hr : pyRFindChar (fun c => c == '\x7d') ('\x7b' :: rest) with
      | some j => simp [codeSpan, hfind, hr, sliceList]
      | none => simp [codeSpan, hfind, hr]
    · have hdw : ((c :: rest).dropWhile (fun c => c != '\x7b')) =
          rest.dropWhile (fun c => c != '\x7b') := by
        simp [List.dropWhile_cons, hc]
      have hrhs : braceSpan (c :: rest) = braceSpan rest := by
        rw [braceSpan, hdw]; rfl
      rw [hrhs, ← ih]
      have hfind : pyFindChar (fun x => x == '\x7b') (c :: rest) =
          (pyFindChar (fun x => x == '\x7b') rest).map (· + 1) := by
        simp [pyFindChar, hc]
      cases hf : pyFindChar (fun x => x == '\x7b') rest with
      | none => simp [codeSpan, hfind, hf]
      | some i =>
        cases hr : pyRFindChar (fun x => x == '\x7d') rest with
        | some j =>
          have hrc : pyRFindChar (fun x => x == '\x7d') (c :: rest) = some (j + 1) := by
            simp [pyRFindChar, hr]
          have hslice : sliceList (c :: rest) (i + 1) (j + 1 + 1) =
              sliceList rest i (j + 1) := by
            simp [sliceList]
          by_cases hij : i < j + 1
          · have hij2 : i + 1 < j + 1 + 1 := by omega
            simp [codeSpan, hfind, hf, hr, hrc, hij, hij2, hslice]
          · have hij2 : ¬ (i + 1 < j + 1 + 1) := by omega
            simp [codeSpan, hfind, hf, hr, hrc, hij, hij2]
        | none =>
          by_cases hcd : c = '\x7d'
          · have hrc : pyRFindChar (fun x => x == '\x7d') (c :: rest) = some 0 := by
              simp [pyRFindChar, hr, hcd]
            have hij2 : ¬ (i + 1 < 0 + 1) := by omega
            simp [codeSpan, hfind, hf, hr, hrc, hij2]
          · have hrc : pyRFindChar (fun x => x == '\x7d') (c :: rest) = none := by
              simp [pyRFindChar, hr, hcd]
            simp [codeSpan, hfind, hf, hr, hrc]

/-- C7 (amended): `reason_with_json_output` passes reason errors through, and
otherwise parses the substring from the first `{` through the last `}` of the
text, returning the parsed value on success and the raw text with the warning
flag on any failure — it never fabricates a JSON object. -/
theorem reason_with_json_output_spec (r : ReasonOutcome) :
    reason_with_json_output r =
      match r with
      | .failure e => .errorResult e
      | .text s =>
        match (braceSpan s).bind json_loads with
        | some v => .parsed v
        | none => .rawWithWarning s := by
  cases r with
  | failure e => rfl
  | text s =>
    show reason_with_json_output (.text s) =
      match (braceSpan s).bind json_loads with
      | some v => JsonReasonResult.parsed v
      | none => JsonReasonResult.rawWithWarning s
    rw [← codeSpan_eq_braceSpan]
    cases hf : pyFindChar (fun c => c == '\x7b') s with
    | none => simp [reason_with_json_output, codeSpan, hf]
    | some i =>
      cases hr : pyRFindChar (fun c => c == '\x7d') s with
      | none => simp [reason_with_json_output, codeSpan, hf, hr]
      | some j =>
        by_cases hij : i < j + 1
        · cases hjson : json_loads (sliceList s i (j + 1)) with
          | none => simp [reason_with_json_output, codeSpan, hf, hr, hij, hjson]
          | some v => simp [reason_with_json_output, codeSpan, hf, hr, hij, hjson]
        · simp [reason_with_json_output, codeSpan, hf, hr, hij]

/-- The text of the C7 counterexample: two complete JSON objects side by
side. -/
def c7text : List Char :=
  String.toList "\x7b\"a\": 1\x7d \x7b\"b\": 2\x7d"

/-- C7 (counterexample): on text holding two JSON objects, the first balanced
`{...}` parses fine, yet the code returns the raw text with a warning — it
slices from the first `{` to the last `}`, which fails to parse, so it does
not extract the first balanced group as claimed. -/
theorem reason_with_json_output_not_first_balanced :
    (firstBalanced c7text).bind json_loads = some (.dict [("a", .num 1)]) ∧
    reason_with_json_output (.text c7text) = .rawWithWarning c7text := by
  constructor
  · rfl
  · rfl

/-! ## C5/C10: the data-extraction agent (`app/agents/data_extraction_agent.py`)

`execute` resolves columns and sheet/file names from the task-identification
input and the task input, asks the reasoner for a JSON array of rows, parses
it with a first-`[`-to-last-`]` slice, normalises every row over the resolved
columns, writes the spreadsheet, evaluates, and returns `completed`; every
failure path (and the catch-all `except`) returns `failed`.  The reasoner
text, file existence, the writer calls and the evaluator are outcome
parameters; `.error` models a raised exception, caught by the outer `try`. -/

/-- Python dict lookup (`d.get(k)` / `k in d`). -/
def lookupAssoc (k : String) : List (String × PyVal) → Option PyVal
  | [] => none
  | (k2, v) :: rest => if k2 == k then some v else lookupAssoc k rest

/-- Python truthiness of a value. -/
def pyvalFalsy : PyVal → Bool
  | .str s => s.isEmpty
  | .num n => n == 0
  | .bool b => !b
  | .null => true
  | .list l => l.isEmpty
  | .dict d => d.isEmpty

/-- Python `str()` of a value (scalars are modelled exactly; the repr of
nested containers is schematic, no property here depends on it). -/
def pyStr : PyVal → String
  | .str s => s
  | .num n => toString n
  | .bool b => if b then "True" else "False"
  | .null => "None"
  | .list _ => "[...]"
  | .dict _ => "\x7b...\x7d"

/-- ASCII whitespace for `str.strip`. -/
def isSpaceChar (c : Char) : Bool :=
  c == ' ' || c == '\n' || c == '\t' || c == '\r'

/-- Python `str.strip()`, char by char. -/
def pyStrip (s : String) : String :=
  String.mk (((s.data.dropWhile isSpaceChar).reverse.dropWhile isSpaceChar).reverse)

/-- Python `s.split(",")`. -/
def splitOnComma (s : String) : List String :=
  (s.data.splitOn ',').map String.mk

/-- The dedup-preserving-order loop of `_parse_columns_from_input`: drop
empties and already-seen names. -/
def dedupeColumnsGo (seen : List String) : List String → List String
  | [] => []
  | c :: rest =>
    if c.isEmpty || seen.contains c then dedupeColumnsGo seen rest
    else c :: dedupeColumnsGo (c :: seen) rest

/-- Deduplicate column names preserving order, dropping empties. -/
def dedupeColumns (cols : List String) : List String :=
  dedupeColumnsGo [] cols

/-- The candidate search of `_parse_columns_from_input`: keys
`columns`/`fields`/`headers`, optionally falling back to the dict's keys. -/
def columnCandidates (d : List (String × PyVal)) (allow_key_fallback : Bool) :
    Option PyVal :=
  match lookupAssoc "columns" d with
  | some v => some v
  | none =>
    match lookupAssoc "fields" d with
    | some v => some v
    | none =>
      match lookupAssoc "headers" d with
      | some v => some v
      | none =>
        if allow_key_fallback then some (.list (d.map (fun kv => .str kv.1)))
        else none

/-- Embeds `DataExtractionAgent._parse_columns_from_input`: search the keys
`columns`/`fields`/`headers`, optionally fall back to the dict's own keys;
split strings on commas, take dict keys, stringify-and-strip list entries;
normalise via `dedupeColumns`. -/
def parse_columns_from_input (input_data : Option (List (String × PyVal)))
    (allow_key_fallback : Bool) : List String :=
  match input_data with
  | none => []
  | some d =>
    if d.isEmpty then []
    else
      match columnCandidates d allow_key_fallback with
      | none => []
      | some v =>
        if pyvalFalsy v then []
        else
          match v with
          | .str s => dedupeColumns ((splitOnComma s).map pyStrip)
          | .dict dd => dedupeColumns (dd.map (fun kv => kv.1))
          | .list l =>
            dedupeColumns (((l.map (fun x => pyStrip (pyStr x)))).filter
              (fun s => !s.isEmpty))
          | _ => []

/-- A non-empty stripped string value under key `k`, as
`_parse_sheet_name_from_input` reads one. -/
def strValOf (d : List (String × PyVal)) (k : String) : Option String :=
  match lookupAssoc k d with
  | some (.str s) => if (pyStrip s).isEmpty then none else some (pyStrip s)
  | _ => none

/-- Embeds `DataExtractionAgent._parse_sheet_name_from_input`. -/
def parse_sheet_name_from_input (input_data : Option (List (String × PyVal))) :
    Option String :=
  match input_data with
  | none => none
  | some d =>
    match strValOf d "sheet_name" with
    | some s => some s
    | none =>
      match strValOf d "sheet" with
      | some s => some s
      | none =>
        match strValOf d "worksheet" with
        | some s => some s
        | none => strValOf d "tab_name"

/-- ASCII lowercase of one character. -/
def pyLowerChar (c : Char) : Char :=
  if 'A' ≤ c ∧ c ≤ 'Z' then Char.ofNat (c.toNat + 32) else c

/-- Computes `file_name.lower().endswith(".xlsx")`. -/
def lowerEndsWithXlsx (f : String) : Bool :=
  (f.data.map pyLowerChar).reverse.take 5 == ['x', 's', 'l', 'x', '.']

/-- Embeds `DataExtractionAgent._parse_file_name_from_input`: keys
`file_name`/`filename`/`file`/`excel_file_name`, fall back to the sheet name,
append `.xlsx` when missing. -/
def parse_file_name_from_input (input_data : Option (List (String × PyVal)))
    (sheet_name : Option String) : Option String :=
  let file0 : Option String :=
    match input_data with
    | none => none
    | some d =>
      match strValOf d "file_name" with
      | some s => some s
      | none =>
        match strValOf d "filename" with
        | some s => some s
        | none =>
          match strValOf d "file" with
          | some s => some s
          | none => strValOf d "excel_file_name"
  let file1 := match file0 with
    | some f => some f
    | none => sheet_name
  match file1 with
  | none => none
  | some f => if lowerEndsWithXlsx f then some f else some (f ++ ".xlsx")

/-- Embeds `DataExtractionAgent._parse_json_array`: first-`[`-to-last-`]` slice,
parsed; anything that is not a JSON list (or any exception) yields `[]`. -/
def parse_json_array (text : List Char) : List PyVal :=
  if text.isEmpty then []
  else
    match pyFindChar (fun c => c == '[') text with
    | none => []
    | some i =>
      match pyRFindChar (fun c => c == ']') text with
      | none => []
      | some j =>
        if i < j + 1 then
          match json_loads (sliceList text i (j + 1)) with
          | some (.list l) => l
          | _ => []
        else []

/-- Embeds `DataExtractionAgent._extract_structured_data`: empty source text skips
the reasoner; a reasoner error leaves no text (`result` is `None`); otherwise
parse the array from the reasoner's text. -/
def extract_structured_data (source_text : String) (reasonText : Option (List Char)) :
    List PyVal :=
  if source_text.isEmpty then []
  else
    match reasonText with
    | none => []
    | some t => parse_json_array t

/-- Embeds `DataExtractionAgent._normalize_data` on one row: a map over exactly the
column list, missing values coerced to `""`; a non-dict row raises. -/
def normalize_row (cols : List String) (row : PyVal) :
    Except String (List (String × PyVal)) :=
  match row with
  | .dict d => .ok (cols.map (fun c => (c, (lookupAssoc c d).getD (.str ""))))
  | _ => .error "AttributeError: get"

/-- Embeds `DataExtractionAgent._normalize_data`. -/
def normalize_data (cols : List String) (rows : List PyVal) :
    Except String (List (List (String × PyVal))) :=
  rows.mapM (normalize_row cols)

/-- The column-resolution tail of `execute`: infer from the first extracted
row when the parsed columns are empty (a non-dict first row raises), last
resort `["data"]`. -/
def resolve_columns (cols0 : List String) (extracted : List PyVal) :
    Except String (List String) :=
  if cols0.isEmpty then
    match extracted.head? with
    | some (.dict d) =>
      .ok (if (d.map (fun kv => kv.1)).isEmpty then ["data"] else d.map (fun kv => kv.1))
    | some _ => .error "AttributeError: keys"
    | none => .ok ["data"]
  else .ok cols0

/-- Outcome of `BaseAgent.evaluate`. -/
structure EvalOut where
  score : ℚ
  errors : List String
  feedback : String

/-- Environment of one `DataExtractionAgent.execute` run: the two input
dicts, the resolved text inputs, and the outcomes of the external calls
(reasoner text, file existence, writer append/create, evaluator). -/
structure DataEnv where
  task_input : List (String × PyVal)
  context_input : Option (List (String × PyVal))
  selected_text : String
  user_context : String
  reasonText : Option (List Char)
  fileExists : Bool
  appendRes : Except String Unit
  createRes : Except String String
  evalRes : Except String EvalOut

/-- The value `selected_text or user_context_text` of `execute`. -/
def dataSource (env : DataEnv) : String :=
  if env.selected_text.isEmpty then env.user_context else env.selected_text

/-- The rows `execute` obtains from `_extract_structured_data`. -/
def dataExtracted (env : DataEnv) : List PyVal :=
  extract_structured_data (dataSource env) env.reasonText

/-- The column resolution of `execute` before extraction: task-identification
input with key fallback, then the task input without it. -/
def dataCols0 (env : DataEnv) : List String :=
  if (parse_columns_from_input env.context_input true).isEmpty then
    parse_columns_from_input (some env.task_input) false
  else parse_columns_from_input env.context_input true

/-- The sheet-name resolution of `execute`. -/
def dataSheetName (env : DataEnv) : Option String :=
  match parse_sheet_name_from_input env.context_input with
  | some s => some s
  | none => parse_sheet_name_from_input (some env.task_input)

/-- The file-name resolution of `execute`. -/
def dataFileName (env : DataEnv) : Option String :=
  match parse_file_name_from_input env.context_input (dataSheetName env) with
  | some f => some f
  | none => parse_file_name_from_input (some env.task_input) (dataSheetName env)

/-- A `failed` `AgentResult` as the `except` handler and the no-data branch
build one. -/
def dataFailed (e : String) : AgentResult :=
  { status := "failed", result := [("error", .str e)], error := some e }

/-- The spreadsheet step of `execute`: append when the target file exists,
else create; returns the resulting path. -/
def dataExcelStep (env : DataEnv) : Except String String :=
  match dataFileName env with
  | some f =>
    if env.fileExists then
      match env.appendRes with
      | .ok _ => .ok ("excel/" ++ f)
      | .error e => .error e
    else
      env.createRes
  | none => env.createRes

/-- Embeds `DataExtractionAgent.execute`. -/
def data_extraction_execute (env : DataEnv) : AgentResult :=
  if (dataExtracted env).isEmpty then dataFailed "No data extracted from input."
  else
    match resolve_columns (dataCols0 env) (dataExtracted env) with
    | .error e => dataFailed e
    | .ok cols =>
      match normalize_data cols (dataExtracted env) with
      | .error e => dataFailed e
      | .ok rows =>
        match dataExcelStep env with
        | .error e => dataFailed e
        | .ok path =>
          match env.evalRes with
          | .error e => dataFailed e
          | .ok ev =>
            { status := "completed"
              result := [("excel_file_path", .str path),
                ("extracted_data", .list (rows.map PyVal.dict)),
                ("columns", .list (cols.map PyVal.str)),
                ("row_count", .num rows.length)]
              excel_file_path := some path
              extracted_data := some rows
              validation_errors := ev.errors
              execution_metadata := [("evaluation_score", .str (toString ev.score)),
                ("evaluation_feedback", .str ev.feedback)] }

/-! ## The note-taking agent (`app/agents/note_taking_agent.py`)

`execute` runs search → (append | create): each phase asks the reasoner for a
JSON payload (parsed with the same first-`{`-to-last-`}` slice), validates
required keys, and calls the Notion client; reasoner errors, invalid
payloads, and Notion exceptions all return `failed`; the two happy paths
return `completed`. -/

/-- Embeds `NoteTakingAgent._extract_json_object`: brace slice, then `json.loads`;
any failure yields `None`.  A successful parse may be any JSON value — the
caller's `.get` raises on a non-dict, which the model surfaces as a value to
case on. -/
def extract_json_object (text : List Char) : Option PyVal :=
  if text.isEmpty then none
  else
    match pyFindChar (fun c => c == '\x7b') text with
    | none => none
    | some i =>
      match pyRFindChar (fun c => c == '\x7d') text with
      | none => none
      | some j =>
        if i < j + 1 then json_loads (sliceList text i (j + 1))
        else none

/-- Normalised Notion search response (`notion_client.search`). -/
structure SearchResponse where
  results : List (List (String × PyVal))
  most_relevant_page_id : Option String
  most_relevant_url : Option String

/-- Normalised Notion append response (`append_block_children`). -/
structure AppendResponse where
  page_id : Option String

/-- Normalised Notion create response (`create_page`). -/
structure CreateResponse where
  page_id : Option String
  url : Option String

/-- Environment of one `NoteTakingAgent.execute` run: resolved text inputs
and the outcomes of the three reasoner calls and three Notion calls (each
`.error` models a raised `NotionClientError`/exception, caught by the outer
`try`). -/
structure NoteEnv where
  selected_text : String
  user_context : String
  urls : List String
  searchReason : ReasonOutcome
  searchRes : Except String SearchResponse
  appendReason : ReasonOutcome
  appendRes : Except String AppendResponse
  createReason : ReasonOutcome
  createRes : Except String CreateResponse

/-- A `failed` note-agent result (`result={}` plus the error message). -/
def noteFailed (e : String) : AgentResult :=
  { status := "failed", result := [], error := some e }

/-- The truncation `selected_text[:200] + "…"` truncation used in the completed results. -/
def contentPreview (s : String) : String :=
  if 200 < s.data.length then String.mk (s.data.take 200) ++ "…" else s

/-- The append phase (step 3a) of `NoteTakingAgent.execute`. -/
def note_append_phase (env : NoteEnv) (target_page_url : Option String) : AgentResult :=
  match env.appendReason with
  | .failure e => noteFailed e
  | .text t =>
    match extract_json_object t with
    | none => noteFailed "Invalid append payload: need \"page_id\" and \"blocks\" array"
    | some payload =>
      if pyvalFalsy payload then
        noteFailed "Invalid append payload: need \"page_id\" and \"blocks\" array"
      else
        match payload with
        | .dict d =>
          match lookupAssoc "page_id" d with
          | none => noteFailed "Invalid append payload: need \"page_id\" and \"blocks\" array"
          | some pid =>
            if pyvalFalsy pid then
              noteFailed "Invalid append payload: need \"page_id\" and \"blocks\" array"
            else
              match lookupAssoc "blocks" d with
              | none => noteFailed "Invalid append payload: need \"page_id\" and \"blocks\" array"
              | some blocks =>
                if pyvalFalsy blocks then
                  noteFailed "Invalid append payload: need \"page_id\" and \"blocks\" array"
                else
                  match env.appendRes with
                  | .error e => noteFailed e
                  | .ok resp =>
                    let out_page_id : PyVal :=
                      match resp.page_id with
                      | some p => if p.isEmpty then pid else .str p
                      | none => pid
                    { status := "completed"
                      result := [("notion_page_id", out_page_id),
                        ("notion_page_url",
                          target_page_url.elim PyVal.null PyVal.str),
                        ("summary", .str "Note appended to existing page in Notion."),
                        ("content_preview", .str (contentPreview env.selected_text))] }
        | _ => noteFailed "AttributeError: get"

/-- The create phase (step 3b) of `NoteTakingAgent.execute`. -/
def note_create_phase (env : NoteEnv) : AgentResult :=
  match env.createReason with
  | .failure e => noteFailed e
  | .text t =>
    match extract_json_object t with
    | none => noteFailed "Invalid create payload: need \"title\" (string)"
    | some payload =>
      if pyvalFalsy payload then
        noteFailed "Invalid create payload: need \"title\" (string)"
      else
        match payload with
        | .dict d =>
          match lookupAssoc "title" d with
          | some (.str _) =>
            match env.createRes with
            | .error e => noteFailed e
            | .ok resp =>
              { status := "completed"
                result := [("notion_page_id",
                    resp.page_id.elim PyVal.null PyVal.str),
                  ("notion_page_url", resp.url.elim PyVal.null PyVal.str),
                  ("summary", .str "Note created in Notion."),
                  ("content_preview", .str (contentPreview env.selected_text))] }
          | _ => noteFailed "Invalid create payload: need \"title\" (string)"
        | _ => noteFailed "AttributeError: get"

/-- Embeds `NoteTakingAgent.execute`: search payload → Notion search → append to the
first result, or create a page when the search came back empty. -/
def note_taking_execute (env : NoteEnv) : AgentResult :=
  match env.searchReason with
  | .failure e => noteFailed e
  | .text t =>
    match extract_json_object t with
    | none => noteFailed "Invalid or missing search payload: need at least \"query\" (string)"
    | some payload =>
      if pyvalFalsy payload then
        noteFailed "Invalid or missing search payload: need at least \"query\" (string)"
      else
        match payload with
        | .dict d =>
          match lookupAssoc "query" d with
          | some (.str q) =>
            if (pyStrip q).isEmpty then
              noteFailed "Search payload query cannot be empty"
            else
              match env.searchRes with
              | .error e => noteFailed e
              | .ok resp =>
                if resp.results.isEmpty then note_create_phase env
                else note_append_phase env resp.most_relevant_url
          | _ => noteFailed "Invalid or missing search payload: need at least \"query\" (string)"
        | _ => noteFailed "AttributeError: get"

/-- C10: both built-in agents only ever emit status `completed` or `failed`;
the `partial` value the agent-result contract allows never occurs. -/
theorem builtin_agents_status_binary :
    (∀ env : DataEnv, (data_extraction_execute env).status = "completed" ∨
      (data_extraction_execute env).status = "failed") ∧
    (∀ env : NoteEnv, (note_taking_execute env).status = "completed" ∨
      (note_taking_execute env).status = "failed") := by
  constructor
  · intro env
    unfold data_extraction_execute
    repeat' split
    all_goals first | (left; rfl) | (right; rfl)
  · intro env
    unfold note_taking_execute note_append_phase note_create_phase
    repeat' split
    all_goals first | (left; rfl) | (right; rfl)

/-- The dedup loop keeps no duplicates and nothing from `seen`. -/
theorem dedupeColumnsGo_nodup (l : List String) : ∀ seen : List String,
    (dedupeColumnsGo seen l).Nodup ∧
    ∀ c ∈ dedupeColumnsGo seen l, seen.contains c = false := by
  induction l with
  | nil => intro seen; exact ⟨List.nodup_nil, by intro c hc; simp [dedupeColumnsGo] at hc⟩
  | cons c rest ih =>
    intro seen
    by_cases hc : (c.isEmpty || seen.contains c) = true
    · simp only [dedupeColumnsGo, if_pos hc]
      exact ih seen
    · simp only [dedupeColumnsGo, if_neg hc]
      obtain ⟨hnodup, hmem⟩ := ih (c :: seen)
      have hcnot : c ∉ dedupeColumnsGo (c :: seen) rest := by
        intro hin
        have := hmem c hin
        simp at this
      have hcseen : seen.contains c = false := by
        simp only [Bool.or_eq_true] at hc
        push_neg at hc
        exact Bool.eq_false_iff.mpr hc.2
      refine ⟨List.nodup_cons.mpr ⟨hcnot, hnodup⟩, ?_⟩
      intro x hx
      rcases List.mem_cons.mp hx with rfl | hx2
      · exact hcseen
      · have := hmem x hx2
        simp only [List.contains_cons, Bool.or_eq_false_iff] at this
        exact this.2

/-- The `dedupeColumns` output has no duplicates. -/
theorem dedupeColumns_nodup (l : List String) : (dedupeColumns l).Nodup :=
  (dedupeColumnsGo_nodup l []).1

/-- Parsed column lists have no duplicates. -/
theorem parse_columns_from_input_nodup (input : Option (List (String × PyVal)))
    (b : Bool) : (parse_columns_from_input input b).Nodup := by
  unfold parse_columns_from_input
  repeat' split
  all_goals first | exact List.nodup_nil | apply dedupeColumns_nodup

/-- The column list `execute` starts from has no duplicates. -/
theorem dataCols0_nodup (env : DataEnv) : (dataCols0 env).Nodup := by
  unfold dataCols0
  split
  · exact parse_columns_from_input_nodup _ _
  · exact parse_columns_from_input_nodup _ _

/-- Resolved columns are never empty and inherit the no-duplicates property
from the parsed columns or the first row's keys. -/
theorem resolve_columns_nodup (cols0 : List String) (extracted : List PyVal)
    (h0 : cols0.Nodup)
    (hfirst : ∀ d, extracted.head? = some (.dict d) → (d.map Prod.fst).Nodup) :
    ∀ cols, resolve_columns cols0 extracted = .ok cols → cols.Nodup ∧ cols ≠ [] := by
  intro cols h
  unfold resolve_columns at h
  by_cases he : cols0.isEmpty
  · rw [if_pos he] at h
    cases hh : extracted.head? with
    | none =>
      rw [hh] at h
      obtain rfl : ["data"] = cols := Except.ok.inj h
      exact ⟨by simp, by simp⟩
    | some v =>
      rw [hh] at h
      cases v with
      | dict d =>
        have hd := hfirst d hh
        by_cases hks : (d.map (fun kv => kv.1)).isEmpty
        · simp only [if_pos hks] at h
          obtain rfl : ["data"] = cols := Except.ok.inj h
          exact ⟨by simp, by simp⟩
        · simp only [if_neg hks] at h
          obtain rfl : d.map (fun kv => kv.1) = cols := Except.ok.inj h
          exact ⟨hd, by simpa using hks⟩
      | str s => exact absurd h (by simp)
      | num n => exact absurd h (by simp)
      | bool b => exact absurd h (by simp)
      | null => exact absurd h (by simp)
      | list l => exact absurd h (by simp)
  · rw [if_neg he] at h
    obtain rfl : cols0 = cols := Except.ok.inj h
    exact ⟨h0, by simpa using he⟩

/-- Looking a column up in a row built over the column list finds the built
value. -/
theorem lookupAssoc_map_self (c : String) (f : String → PyVal) :
    ∀ cols : List String, c ∈ cols →
      lookupAssoc c (cols.map (fun x => (x, f x))) = some (f c) := by
  intro cols
  induction cols with
  | nil => intro h; exact absurd h (List.not_mem_nil c)
  | cons c0 rest ih =>
    intro hc
    by_cases h0 : c0 = c
    · subst h0
      simp [lookupAssoc]
    · have hc2 : c ∈ rest := by
        rcases List.mem_cons.mp hc with rfl | h
        · exact absurd rfl h0
        · exact h
      have hbeq : (c0 == c) = false := by
        exact beq_eq_false_iff_ne.mpr h0
      simp [lookupAssoc, hbeq, ih hc2]

/-- A normalised row is keyed exactly by the column list, with absent values
coerced to the empty string. -/
theorem normalize_row_spec (cols : List String) (d : List (String × PyVal))
    (r : List (String × PyVal)) (h : normalize_row cols (.dict d) = .ok r) :
    r.map Prod.fst = cols ∧
    (∀ c ∈ cols, lookupAssoc c d = none → lookupAssoc c r = some (.str "")) := by
  have hr : r = cols.map (fun c => (c, (lookupAssoc c d).getD (.str ""))) :=
    (Except.ok.inj h).symm
  subst hr
  constructor
  · rw [List.map_map]
    have hfun : (Prod.fst ∘ fun c : String => (c, (lookupAssoc c d).getD (PyVal.str ""))) =
        id := rfl
    rw [hfun, List.map_id]
  · intro c hc hnone
    rw [lookupAssoc_map_self c _ cols hc, hnone]
    rfl

/-- Embedded `_normalize_data` succeeds exactly rowwise: the output has one row per
input row, produced by `normalize_row`. -/
theorem normalize_data_spec (cols : List String) :
    ∀ (extracted : List PyVal) (rows : List (List (String × PyVal))),
      normalize_data cols extracted = .ok rows →
      (∀ r ∈ rows, ∃ v ∈ extracted, normalize_row cols v = .ok r) ∧
      (∀ i v, extracted.get? i = some v →
        ∃ r, rows.get? i = some r ∧ normalize_row cols v = .ok r) := by
  intro extracted
  induction extracted with
  | nil =>
    intro rows h
    obtain rfl : ([] : List (List (String × PyVal))) = rows := Except.ok.inj h
    exact ⟨by simp, by simp⟩
  | cons v rest ih =>
    intro rows h
    unfold normalize_data at h
    rw [List.mapM_cons] at h
    cases hv : normalize_row cols v with
    | error e =>
      rw [hv] at h
      exact absurd h (by simp [Bind.bind, Except.bind])
    | ok r0 =>
      rw [hv] at h
      cases hrest : rest.mapM (normalize_row cols) with
      | error e =>
        rw [hrest] at h
        exact absurd h (by simp [Bind.bind, Except.bind])
      | ok rs =>
        rw [hrest] at h
        have hrows : r0 :: rs = rows := by
          have := h
          simp only [Bind.bind, Except.bind, Pure.pure, Except.pure] at this
          exact Except.ok.inj this
        subst hrows
        obtain ⟨ih1, ih2⟩ := ih rs hrest
        constructor
        · intro r hr
          rcases List.mem_cons.mp hr with rfl | hr2
          · exact ⟨v, List.mem_cons_self _ _, hv⟩
          · obtain ⟨v2, hv2, hn⟩ := ih1 r hr2
            exact ⟨v2, List.mem_cons_of_mem _ hv2, hn⟩
        · intro i w hi
          cases i with
          | zero =>
            obtain rfl : v = w := by simpa using hi
            exact ⟨r0, rfl, hv⟩
          | succ n =>
            have hi2 : rest.get? n = some w := by simpa using hi
            obtain ⟨r, hr, hn⟩ := ih2 n w hi2
            exact ⟨r, by simpa using hr, hn⟩

/-- C5: whenever a data-extraction run returns rows, every returned row is a
map over exactly the resolved column list — same names in the same order, no
duplicates, never empty — with values absent from the extracted row coerced
to `""`; the columns are the parsed ones when any were parsed, else the first
extracted row's keys, else the single column `data`. -/
theorem data_extraction_column_preservation (env : DataEnv)
    (rows : List (List (String × PyVal)))
    (hkeys : ∀ d, (dataExtracted env).head? = some (.dict d) →
      (d.map Prod.fst).Nodup)
    (hret : (data_extraction_execute env).extracted_data = some rows) :
    ∃ cols, resolve_columns (dataCols0 env) (dataExtracted env) = .ok cols ∧
      normalize_data cols (dataExtracted env) = .ok rows ∧
      (∀ r ∈ rows, r.map Prod.fst = cols) ∧
      cols.Nodup ∧ cols ≠ [] ∧
      (¬ (dataCols0 env).isEmpty → cols = dataCols0 env) ∧
      ((dataCols0 env).isEmpty → ∀ d, (dataExtracted env).head? = some (.dict d) →
        cols = if (d.map (fun kv => kv.1)).isEmpty then ["data"]
          else d.map (fun kv => kv.1)) ∧
      (∀ i dv, (dataExtracted env).get? i = some (.dict dv) →
        ∀ c ∈ cols, lookupAssoc c dv = none →
          ∃ r, rows.get? i = some r ∧ lookupAssoc c r = some (.str "")) := by
  unfold data_extraction_execute at hret
  split at hret
  · exact absurd hret (by simp [dataFailed])
  · split at hret
    · exact absurd hret (by simp [dataFailed])
    · rename_i cols hcols
      split at hret
      · exact absurd hret (by simp [dataFailed])
      · rename_i rows0 hrows0
        split at hret
        · exact absurd hret (by simp [dataFailed])
        · split at hret
          · exact absurd hret (by simp [dataFailed])
          · have hrowseq : rows0 = rows := by simpa using hret
            rw [hrowseq] at hrows0
            obtain ⟨hnodup, hne⟩ :=
              resolve_columns_nodup (dataCols0 env) (dataExtracted env)
                (dataCols0_nodup env) hkeys cols hcols
            obtain ⟨hall, hidx⟩ := normalize_data_spec cols (dataExtracted env) rows hrows0
            refine ⟨cols, hcols, hrows0, ?_, hnodup, hne, ?_, ?_, ?_⟩
            · intro r hr
              obtain ⟨v, _, hn⟩ := hall r hr
              cases v with
              | dict d => exact (normalize_row_spec cols d r hn).1
              | str s => exact absurd hn (by simp [normalize_row])
              | num n => exact absurd hn (by simp [normalize_row])
              | bool b => exact absurd hn (by simp [normalize_row])
              | null => exact absurd hn (by simp [normalize_row])
              | list l => exact absurd hn (by simp [normalize_row])
            · intro h0
              unfold resolve_columns at hcols
              rw [if_neg (by simpa using h0)] at hcols
              exact (Except.ok.inj hcols).symm
            · intro h0 d hd
              unfold resolve_columns at hcols
              rw [if_pos (by simpa using h0), hd] at hcols
              exact (Except.ok.inj hcols).symm
            · intro i dv hi c hc hnone
              obtain ⟨r, hr, hn⟩ := hidx i (.dict dv) hi
              exact ⟨r, hr, (normalize_row_spec cols dv r hn).2 c hc hnone⟩

/-- Concrete environment for the C5 witness: columns from the task input, one
extracted row missing the second column. -/
def c5env : DataEnv :=
  { task_input := [("columns", .list [.str "name", .str "price"])]
    context_input := none
    selected_text := "t"
    user_context := ""
    reasonText := some (String.toList "[\x7b\"name\": \"A\"\x7d]")
    fileExists := false
    appendRes := .ok ()
    createRes := .ok "excel/leads.xlsx"
    evalRes := .ok { score := 1, errors := [], feedback := "ok" } }

/-- Witness for `data_extraction_column_preservation` at `c5env`. -/
theorem data_extraction_column_preservation_witness :
    ∃ cols, resolve_columns (dataCols0 c5env) (dataExtracted c5env) = .ok cols ∧
      normalize_data cols (dataExtracted c5env) =
        .ok [[("name", PyVal.str "A"), ("price", PyVal.str "")]] ∧
      (∀ r ∈ [[("name", PyVal.str "A"), ("price", PyVal.str "")]],
        r.map Prod.fst = cols) ∧
      cols.Nodup ∧ cols ≠ [] ∧
      (¬ (dataCols0 c5env).isEmpty → cols = dataCols0 c5env) ∧
      ((dataCols0 c5env).isEmpty → ∀ d, (dataExtracted c5env).head? = some (.dict d) →
        cols = if (d.map (fun kv => kv.1)).isEmpty then ["data"]
          else d.map (fun kv => kv.1)) ∧
      (∀ i dv, (dataExtracted c5env).get? i = some (.dict dv) →
        ∀ c ∈ cols, lookupAssoc c dv = none →
          ∃ r, [[("name", PyVal.str "A"), ("price", PyVal.str "")]].get? i = some r ∧
            lookupAssoc c r = some (.str "")) := by
  apply data_extraction_column_preservation c5env
    [[("name", PyVal.str "A"), ("price", PyVal.str "")]]
  · intro d hd
    have h2 : (dataExtracted c5env).head? =
        some (PyVal.dict [("name", PyVal.str "A")]) := rfl
    rw [h2] at hd
    have h3 := Option.some.inj hd
    injection h3 with h4
    subst h4
    decide
  · rfl

end BrowserFlow
